import Mathlib

/-!
# Verification of treemd against its specification

This file embeds the parts of the `treemd` repository that the verified
claims concern: the input pre-processing (`src/input.rs`), the key-string
parsing and formatting (`src/keybindings/parse.rs`), and the tql query
subsystem (`src/query/mod.rs` together with the engine it re-exports).

Conventions of the embedding:
* Rust `&str` values are modelled as Lean `String` / `List Char`; byte
  lengths are computed from UTF-8 sizes of the characters.
* Unicode-table-driven character predicates (`char::is_whitespace`,
  `char::is_uppercase`, `char::is_alphabetic`, `str::to_lowercase`) are
  modelled on their ASCII fragment, the only fragment the verified
  properties can reach; non-ASCII characters are left untouched.
* Rust `Result<T, E>` is modelled as `Except E T`.
-/

set_option maxHeartbeats 1000000

namespace Treemd

/-! ## Character helpers shared by the embedded modules -/

-- Decidable equality on `Except`, used to evaluate the embedded
-- fallible functions on concrete inputs.
deriving instance DecidableEq for Except

/-- ASCII fragment of Rust `char::is_whitespace` (space, tab, newline,
vertical tab, form feed, carriage return), phrased on code points. -/
def rustIsWhitespace (c : Char) : Bool :=
  decide (c.toNat = 32 ∨ c.toNat = 9 ∨ c.toNat = 10 ∨ c.toNat = 11 ∨
    c.toNat = 12 ∨ c.toNat = 13)

/-- ASCII fragment of the lowercase mapping used by Rust `str::to_lowercase`:
uppercase ASCII letters are shifted to lowercase, everything else kept. -/
def rustToLower (c : Char) : Char :=
  if 65 ≤ c.toNat ∧ c.toNat ≤ 90 then Char.ofNat (c.toNat + 32) else c

/-- ASCII fragment of Rust `char::is_uppercase`. -/
def rustIsUpper (c : Char) : Bool :=
  decide (65 ≤ c.toNat ∧ c.toNat ≤ 90)

/-- ASCII fragment of Rust `char::is_alphabetic`. -/
def rustIsAlphabetic (c : Char) : Bool :=
  decide ((97 ≤ c.toNat ∧ c.toNat ≤ 122) ∨ (65 ≤ c.toNat ∧ c.toNat ≤ 90))

/-- ASCII fragment of Rust `char::to_uppercase` on a single character. -/
def rustToUpper (c : Char) : Char :=
  if 97 ≤ c.toNat ∧ c.toNat ≤ 122 then Char.ofNat (c.toNat - 32) else c

/-- Byte length of a character sequence, as Rust `str::len` counts it. -/
def byteLen (cs : List Char) : Nat :=
  (cs.map Char.utf8Size).sum

/-- Rust `str::trim_start` restricted to ASCII whitespace. -/
def trimStartL (cs : List Char) : List Char :=
  cs.dropWhile rustIsWhitespace

/-- Rust `str::trim_end` restricted to ASCII whitespace. -/
def trimEndL (cs : List Char) : List Char :=
  (cs.reverse.dropWhile rustIsWhitespace).reverse

/-- Rust `str::trim` restricted to ASCII whitespace. -/
def trimL (cs : List Char) : List Char :=
  trimEndL (trimStartL cs)

/-- Substring containment test, as Rust `str::contains` with a string
pattern: some contiguous run of `l` equals `pat`. -/
def containsSeq (l pat : List Char) : Bool :=
  match l with
  | [] => pat.isEmpty
  | _ :: rest => pat.isPrefixOf l || containsSeq rest pat

/-! ## `src/input.rs` — input processing -/

/-- Input source for treemd (`InputSource` in `src/input.rs`), carrying
the content read from a file or from stdin. -/
inductive InputSource where
  | file (c : String)
  | stdin (c : String)
deriving DecidableEq

/-- The content carried by an `InputSource` (the first `match` of
`process_input`). -/
def InputSource.content : InputSource → String
  | .file c => c
  | .stdin c => c

/-- Rust `content.trim_start().starts_with('#')`. -/
def startsWithHashAfterTrim (s : String) : Bool :=
  (trimStartL s.data).head? = some '#'

/-- Process input and return content ready for markdown parsing
(`process_input` in `src/input.rs`): content whose trimmed form starts
with `#` or which contains `"\n#"` is passed through; anything else is
wrapped under a `# Input` heading. -/
def process_input (source : InputSource) : Except String String :=
  let content := source.content
  if startsWithHashAfterTrim content || containsSeq content.data "\n#".data then
    .ok content
  else
    .ok ("# Input\n\n" ++ content)

/-! ## `src/keybindings/parse.rs` — key string parsing and formatting -/

/-- The crossterm `KeyCode` variants reachable from this repository's key
parsing and formatting. `other` stands in for the remaining crossterm
variants (media keys, …), which `format_key_code` renders as `"?"` and
`parse_key` never produces. -/
inductive KeyCode where
  | Backspace | Enter | Left | Right | Up | Down | Home | End
  | PageUp | PageDown | Tab | BackTab | Delete | Insert
  | F (n : Nat) | Char (c : Char) | Null | Esc | other
deriving DecidableEq

/-- The crossterm `KeyModifiers` bit set, restricted to the three bits
this repository reads and writes (CONTROL, ALT, SHIFT). -/
structure KeyModifiers where
  control : Bool
  alt : Bool
  shift : Bool
deriving DecidableEq

/-- `KeyModifiers::NONE`. -/
def KeyModifiers.NONE : KeyModifiers := ⟨false, false, false⟩

/-- A key binding representing a key code with modifiers (`KeyBinding`
in `src/keybindings/parse.rs`). -/
structure KeyBinding where
  code : KeyCode
  modifiers : KeyModifiers
deriving DecidableEq

/-- Rust `str::parse::<u8>` on a digit string: an optional leading `+`,
then at least one decimal digit, failing on overflow past 255. -/
def parseU8Digits : List Char → Nat → Option Nat
  | [], acc => some acc
  | c :: rest, acc =>
    if '0' ≤ c ∧ c ≤ '9' then
      let v := acc * 10 + (c.toNat - '0'.toNat)
      if v ≤ 255 then parseU8Digits rest v else none
    else none

/-- Rust `str::parse::<u8>` applied to a character list. -/
def parseU8 (cs : List Char) : Option Nat :=
  let cs := match cs with
    | '+' :: rest => rest
    | _ => cs
  match cs with
  | [] => none
  | _ => parseU8Digits cs 0

/-- The modifier-stripping loop at the top of `parse_key`: repeatedly
strip one of the recognized modifier spellings off the front of the
(lowercased) key string, accumulating the corresponding modifier bits.
The fuel argument bounds the number of iterations; the callers pass
more fuel than the string has characters, so the loop always reaches
its fixed point. -/
def stripModifiers : Nat → List Char → KeyModifiers → KeyModifiers × List Char
  | 0, cs, m => (m, cs)
  | fuel + 1, cs, m =>
    if ("ctrl-".data).isPrefixOf cs then
      stripModifiers fuel (cs.drop 5) { m with control := true }
    else if ("control-".data).isPrefixOf cs then
      stripModifiers fuel (cs.drop 8) { m with control := true }
    else if ("alt-".data).isPrefixOf cs then
      stripModifiers fuel (cs.drop 4) { m with alt := true }
    else if ("meta-".data).isPrefixOf cs then
      stripModifiers fuel (cs.drop 5) { m with alt := true }
    else if ("shift-".data).isPrefixOf cs then
      stripModifiers fuel (cs.drop 6) { m with shift := true }
    else if ("c-".data).isPrefixOf cs then
      stripModifiers fuel (cs.drop 2) { m with control := true }
    else if ("a-".data).isPrefixOf cs then
      stripModifiers fuel (cs.drop 2) { m with alt := true }
    else if ("s-".data).isPrefixOf cs then
      stripModifiers fuel (cs.drop 2) { m with shift := true }
    else (m, cs)

/-- Parse a key code string without modifiers (`parse_key_code` in
`src/keybindings/parse.rs`). The guard arms use byte lengths, as the
Rust `s.len()` calls do. -/
def parse_key_code (s : List Char) : Except String KeyCode :=
  if s = "enter".data ∨ s = "return".data ∨ s = "cr".data then .ok .Enter
  else if s = "esc".data ∨ s = "escape".data then .ok .Esc
  else if s = "tab".data then .ok .Tab
  else if s = "backtab".data ∨ s = "btab".data then .ok .BackTab
  else if s = "backspace".data ∨ s = "bs".data then .ok .Backspace
  else if s = "delete".data ∨ s = "del".data then .ok .Delete
  else if s = "insert".data ∨ s = "ins".data then .ok .Insert
  else if s = "home".data then .ok .Home
  else if s = "end".data then .ok .End
  else if s = "pageup".data ∨ s = "pgup".data ∨ s = "page_up".data then .ok .PageUp
  else if s = "pagedown".data ∨ s = "pgdn".data ∨ s = "pgdown".data ∨
      s = "page_down".data then .ok .PageDown
  else if s = "up".data ∨ s = "uparrow".data then .ok .Up
  else if s = "down".data ∨ s = "downarrow".data then .ok .Down
  else if s = "left".data ∨ s = "leftarrow".data then .ok .Left
  else if s = "right".data ∨ s = "rightarrow".data then .ok .Right
  else if s = "space".data ∨ s = "spc".data then .ok (.Char ' ')
  else if s = "lt".data ∨ s = "less".data then .ok (.Char '<')
  else if s = "gt".data ∨ s = "greater".data then .ok (.Char '>')
  else if s = "bar".data ∨ s = "pipe".data then .ok (.Char '|')
  else if s = "bslash".data ∨ s = "backslash".data then .ok (.Char '\\')
  else if s.head? = some 'f' ∧ 2 ≤ byteLen s then
    match parseU8 (s.drop 1) with
    | none => .error ("Invalid function key: " ++ String.mk s)
    | some n =>
      if 1 ≤ n ∧ n ≤ 24 then .ok (.F n)
      else .error ("Function key out of range (1-24): " ++ String.mk s)
  else if byteLen s = 1 then .ok (.Char (s.headD ' '))
  else .error ("Unknown key: " ++ String.mk s)

/-- Parse a key string into a `KeyBinding` (`parse_key` in
`src/keybindings/parse.rs`): trim, reject the empty string, lowercase,
strip modifier spellings, then parse the remaining key code. -/
def parse_key (s : String) : Except String KeyBinding :=
  let t := trimL s.data
  if t = [] then .error "Empty key string"
  else
    let lower := t.map rustToLower
    let sm := stripModifiers (lower.length + 1) lower KeyModifiers.NONE
    match parse_key_code sm.2 with
    | .error e => .error e
    | .ok code => .ok ⟨code, sm.1⟩

/-- Format a `KeyCode` into a human-readable string (`format_key_code`
in `src/keybindings/parse.rs`). -/
def format_key_code (code : KeyCode) : String :=
  match code with
  | .Char c =>
    if c = ' ' then "Space"
    else if rustIsUpper c || !rustIsAlphabetic c then String.mk [c]
    else String.mk [rustToUpper c]
  | .Enter => "Enter"
  | .Esc => "Esc"
  | .Tab => "Tab"
  | .BackTab => "BackTab"
  | .Backspace => "Backspace"
  | .Delete => "Delete"
  | .Insert => "Insert"
  | .Home => "Home"
  | .End => "End"
  | .PageUp => "PgUp"
  | .PageDown => "PgDn"
  | .Up => "Up"
  | .Down => "Down"
  | .Left => "Left"
  | .Right => "Right"
  | .F n => "F" ++ toString n
  | .Null => "Null"
  | .other => "?"

/-- `Vec::join("-")`, as `format_key` uses it on the modifier parts. -/
def joinDash : List String → String
  | [] => ""
  | [s] => s
  | s :: rest => s ++ "-" ++ joinDash rest

/-- Format a `KeyBinding` into a human-readable string (`format_key` in
`src/keybindings/parse.rs`): `Ctrl`/`Alt`/`Shift` parts, then the key,
joined with `-`. -/
def format_key (binding : KeyBinding) : String :=
  let parts :=
    (if binding.modifiers.control then ["Ctrl"] else []) ++
    (if binding.modifiers.alt then ["Alt"] else []) ++
    (if binding.modifiers.shift then ["Shift"] else []) ++
    [format_key_code binding.code]
  joinDash parts

/-- The key codes `parse_key` can actually return: the named keys, the
function keys F1–F24, and single-byte characters that are neither
uppercase ASCII letters nor (except for the space produced by the named
`"space"` spelling) whitespace. Used to state the round-trip property. -/
def ReachableCode : KeyCode → Prop
  | .Char c => c.utf8Size = 1 ∧ rustIsUpper c = false ∧
      (c = ' ' ∨ rustIsWhitespace c = false)
  | .F n => 1 ≤ n ∧ n ≤ 24
  | .Null => False
  | .other => False
  | _ => True

/-! ## The tql query subsystem

`src/query/mod.rs` (present in the repository) provides the public entry
points `execute`, `parse`, `engine`, `engine_with_registry`,
`format_output` and `OutputFormat`; those definitions below follow that
source. The submodules it re-exports (`lexer`, `parser`, `ast`, `value`,
`registry`, `eval`, `output`) are not part of the available sources, so
their definitions below are modelled from the specification (§3–§4.5 of
the spec), as their doc comments note. -/

/-- Modelled from the spec: the element categories of the document tree
(§6: heading/paragraph/link/table/code-block/text, plus the document
root). The markdown parser that produces the tree is an external
collaborator. -/
inductive NodeKind where
  | document
  | heading (level : Nat)
  | paragraph
  | link
  | table
  | codeBlock
  | text
deriving DecidableEq

mutual
/-- Modelled from the spec: a node of the parsed document tree, exposing
its element category, its textual content, and its child nodes in source
order (§6, document contract). -/
inductive Node where
  | mk (kind : NodeKind) (text : String) (children : NodeList)
deriving DecidableEq
/-- Child sequence of a `Node`, in source order. -/
inductive NodeList where
  | nil
  | cons (n : Node) (rest : NodeList)
deriving DecidableEq
end

/-- The element category of a node. -/
def Node.kind : Node → NodeKind
  | .mk k _ _ => k

/-- The textual content of a node. -/
def Node.text : Node → String
  | .mk _ t _ => t

/-- The children of a node, in source order. -/
def Node.children : Node → NodeList
  | .mk _ _ c => c

/-- Convert a `NodeList` to an ordinary list. -/
def NodeList.toList : NodeList → List Node
  | .nil => []
  | .cons n rest => n :: rest.toList

/-- Modelled from the spec: the document handed to the engine — a tree of
typed nodes; `blocks` are the top-level nodes in source order. -/
structure Document where
  blocks : NodeList
deriving DecidableEq

/-- A byte span into the query source text (`Span` in the query AST). -/
structure Span where
  start : Nat
  stop : Nat
deriving DecidableEq

mutual
/-- Modelled from the spec: the tagged runtime value flowing through
every query stage (§3): string, number, bool, ordered list, null, and a
structural reference to a located element of the document tree (its
position path and the referenced node). -/
inductive Value where
  | str (s : String)
  | num (n : Int)
  | bool (b : Bool)
  | list (vs : ValueList)
  | null
  | node (pos : List Nat) (n : Node)
deriving DecidableEq
/-- Element sequence of a `Value.list`. -/
inductive ValueList where
  | nil
  | cons (v : Value) (rest : ValueList)
deriving DecidableEq
end

mutual
/-- Modelled from the spec: `Value::to_text`, the canonical string
projection of any variant (§3). -/
def Value.toText : Value → String
  | .str s => s
  | .num n => toString n
  | .bool b => if b then "true" else "false"
  | .list vs => String.intercalate ", " vs.toTexts
  | .null => ""
  | .node _ n => n.text
/-- Textual projections of the elements of a `ValueList`. -/
def ValueList.toTexts : ValueList → List String
  | .nil => []
  | .cons v rest => v.toText :: rest.toTexts
end

mutual
/-- Modelled from the spec: an AST node (§3): a selector (dot-path of
identifiers), a function call (name and ordered argument list) or a
literal, each carrying a span for error attribution. -/
inductive Expr where
  | selector (path : List String) (span : Span)
  | call (name : String) (args : ExprList) (span : Span)
  | lit (v : Value) (span : Span)
deriving DecidableEq
/-- Argument sequence of a function call. -/
inductive ExprList where
  | nil
  | cons (e : Expr) (rest : ExprList)
deriving DecidableEq
end

/-- Number of arguments in an `ExprList`. -/
def ExprList.length : ExprList → Nat
  | .nil => 0
  | .cons _ rest => rest.length + 1

/-- Modelled from the spec: a parsed query — an ordered, non-empty
sequence of pipeline stages (§3). -/
structure Query where
  stages : List Expr
deriving DecidableEq

/-- Modelled from the spec: the error taxonomy of the query subsystem
(§7). -/
inductive QueryErrorKind where
  | lexError (msg : String)
  | parseError (msg : String)
  | unknownFunction (name : String)
  | unknownSelector (name : String)
  | arityError (lo : Nat) (hi : Option Nat) (actual : Nat)
  | typeError (msg : String)
  | evalError (msg : String)
deriving DecidableEq

/-- Modelled from the spec: a query error — a kind plus, where
available, a span into the original query text (§3). -/
structure QueryError where
  kind : QueryErrorKind
  span : Option Span
deriving DecidableEq

/-- Modelled from the spec: a classified lexical unit with its byte span
(§3): dot-selector fragment, identifier, string/number literal, the
pipe, parens, comma, and the end-of-input sentinel. -/
inductive Token where
  | selectorFrag (name : String) (span : Span)
  | ident (name : String) (span : Span)
  | strLit (s : String) (span : Span)
  | numLit (n : Int) (span : Span)
  | pipe (span : Span)
  | lparen (span : Span)
  | rparen (span : Span)
  | comma (span : Span)
  | eof (span : Span)
deriving DecidableEq

/-- Modelled from the spec: identifier characters of the query language
(letters, digits, underscore), for selector names and function names. -/
def isIdentChar (c : Char) : Bool :=
  c.isAlphanum || c = '_'

/-- Modelled from the spec: first character of an identifier. -/
def isIdentStart (c : Char) : Bool :=
  c.isAlpha || c = '_'

/-- Numeric value of a digit run. -/
def digitsVal : List Char → Nat → Nat
  | [], acc => acc
  | c :: rest, acc => digitsVal rest (acc * 10 + (c.toNat - '0'.toNat))

/-- Modelled from the spec: scan the remainder of a quoted string
literal with standard escape handling (§4.1); returns the decoded
content, the rest of the input, and the position after the closing
quote, or a `LexError` on an unterminated literal. The fuel argument is
one more than the available characters, so it never runs out. -/
def scanString : Nat → List Char → Nat → Except QueryError (List Char × List Char × Nat)
  | 0, _, pos => .error ⟨.lexError "unterminated string literal", some ⟨pos, pos⟩⟩
  | _ + 1, [], pos => .error ⟨.lexError "unterminated string literal", some ⟨pos, pos⟩⟩
  | fuel + 1, c :: rest, pos =>
    if c = '"' then .ok ([], rest, pos + 1)
    else if c = '\\' then
      match rest with
      | [] => .error ⟨.lexError "unterminated string literal", some ⟨pos, pos + 1⟩⟩
      | e :: rest2 =>
        let esc := if e = 'n' then '\n' else if e = 't' then '\t' else e
        match scanString fuel rest2 (pos + 1 + e.utf8Size) with
        | .error err => .error err
        | .ok (content, r, p) => .ok (esc :: content, r, p)
    else
      match scanString fuel rest (pos + c.utf8Size) with
      | .error err => .error err
      | .ok (content, r, p) => .ok (c :: content, r, p)

/-- Modelled from the spec: the lexer loop (§4.1). Skips whitespace,
recognizes dot-selector fragments, identifiers, string and numeric
literals and the operator tokens, fails with a `LexError` carrying the
offending position otherwise, and ends with the end-of-input sentinel.
The fuel argument is one more than the available characters, so it
never runs out. -/
def tokenizeAux : Nat → List Char → Nat → Except QueryError (List Token)
  | 0, _, pos => .error ⟨.lexError "lexer fuel exhausted", some ⟨pos, pos⟩⟩
  | _ + 1, [], pos => .ok [.eof ⟨pos, pos⟩]
  | fuel + 1, c :: rest, pos =>
    if rustIsWhitespace c then tokenizeAux fuel rest (pos + c.utf8Size)
    else if c = '|' then
      match tokenizeAux fuel rest (pos + 1) with
      | .error e => .error e
      | .ok toks => .ok (.pipe ⟨pos, pos + 1⟩ :: toks)
    else if c = '(' then
      match tokenizeAux fuel rest (pos + 1) with
      | .error e => .error e
      | .ok toks => .ok (.lparen ⟨pos, pos + 1⟩ :: toks)
    else if c = ')' then
      match tokenizeAux fuel rest (pos + 1) with
      | .error e => .error e
      | .ok toks => .ok (.rparen ⟨pos, pos + 1⟩ :: toks)
    else if c = ',' then
      match tokenizeAux fuel rest (pos + 1) with
      | .error e => .error e
      | .ok toks => .ok (.comma ⟨pos, pos + 1⟩ :: toks)
    else if c = '.' then
      let name := rest.takeWhile isIdentChar
      if name.isEmpty then
        .error ⟨.lexError "expected a selector name after the dot", some ⟨pos, pos + 1⟩⟩
      else
        let stop := pos + 1 + byteLen name
        match tokenizeAux fuel (rest.drop name.length) stop with
        | .error e => .error e
        | .ok toks => .ok (.selectorFrag (String.mk name) ⟨pos, stop⟩ :: toks)
    else if c.isDigit then
      let digits := rest.takeWhile Char.isDigit
      let stop := pos + c.utf8Size + byteLen digits
      match tokenizeAux fuel (rest.drop digits.length) stop with
      | .error e => .error e
      | .ok toks =>
        .ok (.numLit (Int.ofNat (digitsVal (c :: digits) 0)) ⟨pos, stop⟩ :: toks)
    else if isIdentStart c then
      let name := rest.takeWhile isIdentChar
      let stop := pos + c.utf8Size + byteLen name
      match tokenizeAux fuel (rest.drop name.length) stop with
      | .error e => .error e
      | .ok toks => .ok (.ident (String.mk (c :: name)) ⟨pos, stop⟩ :: toks)
    else if c = '"' then
      match scanString fuel rest (pos + 1) with
      | .error e => .error e
      | .ok (content, r, p) =>
        match tokenizeAux fuel r p with
        | .error e => .error e
        | .ok toks => .ok (.strLit (String.mk content) ⟨pos, p⟩ :: toks)
    else .error ⟨.lexError "unrecognized character", some ⟨pos, pos + c.utf8Size⟩⟩

/-- Modelled from the spec: `lexer::tokenize` (§4.1) — turn a query
string into its token sequence, ending with the end-of-input sentinel. -/
def tokenize (s : String) : Except QueryError (List Token) :=
  tokenizeAux (s.data.length + 1) s.data 0

/-- Is this token a dot-selector fragment? -/
def Token.isFrag : Token → Bool
  | .selectorFrag _ _ => true
  | _ => false

/-- The name of a selector fragment token (empty for other tokens). -/
def Token.fragName : Token → String
  | .selectorFrag n _ => n
  | _ => ""

/-- The span a token carries. -/
def Token.tokSpan : Token → Span
  | .selectorFrag _ sp => sp
  | .ident _ sp => sp
  | .strLit _ sp => sp
  | .numLit _ sp => sp
  | .pipe sp => sp
  | .lparen sp => sp
  | .rparen sp => sp
  | .comma sp => sp
  | .eof sp => sp

/-- Modelled from the spec: the recursive-descent core of the parser
(§4.2), covering `expr := literal | call | selector`,
`call := identifier ( ( expr (, expr)* )? )` and
`selector := . identifier (. identifier)*`. With `argsMode = false` it
parses one expression and returns it as a singleton; with
`argsMode = true` it parses a comma-separated argument list and consumes
the closing parenthesis. A bare `|` inside an argument list is rejected
with a `ParseError`, as §4.2 resolves. The fuel argument exceeds the
token count, so it never runs out on lexer output. -/
def parseNode : Nat → Bool → List Token → Except QueryError (List Expr × List Token)
  | 0, _, _ => .error ⟨.parseError "parser fuel exhausted", none⟩
  | _ + 1, false, [] => .error ⟨.parseError "unexpected end of input", none⟩
  | fuel + 1, false, t :: rest =>
    match t with
    | .selectorFrag name sp =>
      let more := rest.takeWhile Token.isFrag
      .ok ([.selector (name :: more.map Token.fragName) sp], rest.drop more.length)
    | .strLit s sp => .ok ([.lit (.str s) sp], rest)
    | .numLit n sp => .ok ([.lit (.num n) sp], rest)
    | .ident name sp =>
      match rest with
      | .lparen _ :: .rparen _ :: rest3 => .ok ([.call name .nil sp], rest3)
      | .lparen _ :: rest2 =>
        match parseNode fuel true rest2 with
        | .error e => .error e
        | .ok (args, rest3) => .ok ([.call name (exprsToArgs args) sp], rest3)
      | _ => .error ⟨.parseError "expected an argument list after the function name", some sp⟩
    | tok => .error ⟨.parseError "expected an expression", some tok.tokSpan⟩
  | fuel + 1, true, toks =>
    match parseNode fuel false toks with
    | .error e => .error e
    | .ok (es, rest) =>
      match rest with
      | .comma _ :: rest2 =>
        match parseNode fuel true rest2 with
        | .error e => .error e
        | .ok (args, rest3) => .ok (es ++ args, rest3)
      | .rparen _ :: rest2 => .ok (es, rest2)
      | .pipe sp :: _ =>
        .error ⟨.parseError "a bare pipe is not allowed inside an argument list", some sp⟩
      | tok :: _ =>
        .error ⟨.parseError "expected a comma or a closing parenthesis", some tok.tokSpan⟩
      | [] => .error ⟨.parseError "unmatched parenthesis", none⟩
where
  /-- Pack parsed argument expressions into an `ExprList`. -/
  exprsToArgs : List Expr → ExprList
    | [] => .nil
    | e :: rest => .cons e (exprsToArgs rest)

/-- Modelled from the spec: parse the non-empty pipe-separated stage
sequence `query := stage (| stage)*` (§4.2), rejecting a token that
cannot begin a stage, trailing tokens after a complete query, and a
missing stage after a pipe. -/
def parseStagesF : Nat → List Token → Except QueryError (List Expr)
  | 0, _ => .error ⟨.parseError "parser fuel exhausted", none⟩
  | fuel + 1, toks =>
    match toks with
    | .selectorFrag _ _ :: _ | .ident _ _ :: _ =>
      match parseNode fuel false toks with
      | .error e => .error e
      | .ok (es, rest) =>
        match rest with
        | .pipe _ :: rest2 =>
          match parseStagesF fuel rest2 with
          | .error e => .error e
          | .ok stages => .ok (es ++ stages)
        | [.eof _] => .ok es
        | tok :: _ => .error ⟨.parseError "unexpected token after a stage", some tok.tokSpan⟩
        | [] => .error ⟨.parseError "unexpected end of input", none⟩
    | tok :: _ => .error ⟨.parseError "expected a stage", some tok.tokSpan⟩
    | [] => .error ⟨.parseError "unexpected end of input", none⟩

/-- Modelled from the spec: `parser::parse` (§4.2) — parse a token
sequence into a `Query`, failing with a `ParseError` on an empty query
(zero stages). -/
def parserParse (toks : List Token) : Except QueryError Query :=
  match toks with
  | .eof _ :: _ => .error ⟨.parseError "empty query", none⟩
  | _ =>
    match parseStagesF (toks.length + 1) toks with
    | .error e => .error e
    | .ok stages => .ok ⟨stages⟩

/-- Modelled from the spec: the per-stage evaluation context (§3). It
carries the read-only document; the registry, which §3 also lists, is
threaded by the engine itself here so that registry entries (whose
implementations receive the context) need not contain it circularly. -/
structure EvalContext where
  doc : Document

/-- Modelled from the spec: the extractor signature (§3): given the
current value (a structural reference into the document, handed over by
the engine's per-input loop of §4.4) and the evaluation context, produce
the matching values in document order. -/
def ExtractorFn : Type :=
  Value → EvalContext → Except QueryError (List Value)

/-- Modelled from the spec: a registered function — a callable taking
the argument values and the context, plus the accepted-arity range
(inclusive bounds, `none` for an open upper end) (§3). -/
structure Function where
  impl : List Value → EvalContext → Except QueryError (List Value)
  arityLo : Nat
  arityHi : Option Nat

/-- `Function::new(implementation, arity_range)` (§4.3). -/
def Function.new (impl : List Value → EvalContext → Except QueryError (List Value))
    (lo : Nat) (hi : Option Nat) : Function :=
  ⟨impl, lo, hi⟩

/-- Is an argument count inside a function's declared arity range? -/
def Function.arityOk (f : Function) (n : Nat) : Bool :=
  decide (f.arityLo ≤ n) &&
    (match f.arityHi with
     | none => true
     | some hi => decide (n ≤ hi))

/-- Modelled from the spec: the registry — name-keyed mappings of
functions and extractors (§3). Registration conses onto the front and
lookup takes the first match, so the last registration wins (§4.3). -/
structure Registry where
  functions : List (String × Function)
  extractors : List (String × ExtractorFn)

/-- Look up a function by name (`UnknownFunction` when absent is raised
by the engine). -/
def Registry.lookupFunction (r : Registry) (name : String) : Option Function :=
  (r.functions.find? (fun p => p.1 == name)).map Prod.snd

/-- Look up an extractor by name. -/
def Registry.lookupExtractor (r : Registry) (name : String) : Option ExtractorFn :=
  (r.extractors.find? (fun p => p.1 == name)).map Prod.snd

/-- `register_function` — add or override an entry by name (§4.3). -/
def Registry.register_function (r : Registry) (name : String) (f : Function) : Registry :=
  { r with functions := (name, f) :: r.functions }

/-- `register_extractor` — add or override an entry by name (§4.3). -/
def Registry.register_extractor (r : Registry) (name : String) (ex : ExtractorFn) : Registry :=
  { r with extractors := (name, ex) :: r.extractors }

/-- Modelled from the spec: collect the nodes of a forest whose category
matches `p`, as structural references, in pre-order depth-first
traversal order (§3, ExtractorFn contract). `pos` is the position path
of the forest's parent and `i` the index of the first root. -/
def collectMatching (p : NodeKind → Bool) : List Nat → Nat → NodeList → List Value
  | _, _, .nil => []
  | pos, i, .cons (.mk k t cs) rest =>
    (if p k then [Value.node (pos ++ [i]) (.mk k t cs)] else []) ++
    collectMatching p (pos ++ [i]) 0 cs ++ collectMatching p pos (i + 1) rest

/-- Modelled from the spec: the pre-order depth-first traversal of a
forest, pairing each node with its position path (§3, used to state the
document-order contracts). -/
def preorderPairs : List Nat → Nat → NodeList → List (List Nat × Node)
  | _, _, .nil => []
  | pos, i, .cons (.mk k t cs) rest =>
    (pos ++ [i], .mk k t cs) ::
      (preorderPairs (pos ++ [i]) 0 cs ++ preorderPairs pos (i + 1) rest)

/-- Modelled from the spec: the extractor backing an element-category
selector: on a structural reference it collects the matching nodes of
the subtree below it in document order; on any other value shape it
fails with a `TypeError` (§4.4). -/
def kindExtractor (p : NodeKind → Bool) : ExtractorFn := fun v _ctx =>
  match v with
  | .node pos n => .ok (collectMatching p pos 0 n.children)
  | _ => .error ⟨.typeError "selector applied to a value without document structure", none⟩

/-- Modelled from the spec: the `.hN` selectors extract every heading of
the given level, in document order (§4.3). -/
def headingExtractor (lvl : Nat) : ExtractorFn :=
  kindExtractor (fun k => k = .heading lvl)

/-- Modelled from the spec: `.text` projects the current value(s) to
their textual content (§4.3). -/
def textExtractor : ExtractorFn := fun v _ctx =>
  .ok [.str v.toText]

/-- Modelled from the spec: a built-in string function (uppercase), in
per-item mapping mode: the engine hands it the current item followed by
the explicit arguments (§4.4). -/
def upperFn : Function :=
  Function.new (fun args _ => .ok [.str (String.mk ((args.headD .null).toText.data.map rustToUpper))]) 0 (some 1)

/-- Modelled from the spec: a built-in string function (lowercase). -/
def lowerFn : Function :=
  Function.new (fun args _ => .ok [.str (String.mk ((args.headD .null).toText.data.map rustToLower))]) 0 (some 1)

/-- `Registry::with_builtins` (§4.3): selectors for the standard element
categories — headings by level, paragraphs, links, tables, code blocks —
plus text extraction and common string functions. -/
def Registry.with_builtins : Registry :=
  { functions := [("upper", upperFn), ("lower", lowerFn)],
    extractors :=
      [("h1", headingExtractor 1), ("h2", headingExtractor 2),
       ("h3", headingExtractor 3), ("h4", headingExtractor 4),
       ("h5", headingExtractor 5), ("h6", headingExtractor 6),
       ("p", kindExtractor (fun k => k = .paragraph)),
       ("paragraph", kindExtractor (fun k => k = .paragraph)),
       ("link", kindExtractor (fun k => k = .link)),
       ("table", kindExtractor (fun k => k = .table)),
       ("code", kindExtractor (fun k => k = .codeBlock)),
       ("text", textExtractor)] }

/-- Modelled from the spec: apply an extractor to each value of the
current set in its existing order and concatenate the per-input results,
preserving order (§4.4). -/
def applyExtractorAll (ex : ExtractorFn) (ctx : EvalContext) :
    List Value → Except QueryError (List Value)
  | [] => .ok []
  | v :: rest =>
    match ex v ctx with
    | .error e => .error e
    | .ok vs =>
      match applyExtractorAll ex ctx rest with
      | .error e => .error e
      | .ok rest2 => .ok (vs ++ rest2)

/-- Modelled from the spec: resolve one selector segment through the
registry's extractor table — `UnknownSelector` when the name is not
registered — and apply it across the current set (§4.4). -/
def applySelectorSeg (reg : Registry) (ctx : EvalContext) (name : String) (sp : Span)
    (cur : List Value) : Except QueryError (List Value) :=
  match reg.lookupExtractor name with
  | none => .error ⟨.unknownSelector name, some sp⟩
  | some ex => applyExtractorAll ex ctx cur

/-- Modelled from the spec: apply the segments of a selector path in
order, threading the current set (§4.2 selector grammar, §4.4). -/
def applySelectorPath (reg : Registry) (ctx : EvalContext) :
    List String → Span → List Value → Except QueryError (List Value)
  | [], _, cur => .ok cur
  | name :: rest, sp, cur =>
    match applySelectorSeg reg ctx name sp cur with
    | .error e => .error e
    | .ok next => applySelectorPath reg ctx rest sp next

/-- Pack a list of values into a `ValueList`. -/
def toValueList : List Value → ValueList
  | [] => .nil
  | v :: rest => .cons v (toValueList rest)

/-- Modelled from the spec: collapse an argument's result set to a
single argument value — a singleton passes its value, anything else is
wrapped as a list value. -/
def collapseArg : List Value → Value
  | [v] => v
  | vs => .list (toValueList vs)

/-- Modelled from the spec: per-item mapping mode of a function call —
the implementation runs once per item of the current set, receiving the
item followed by the explicit argument values, and the outputs are
concatenated in order (§4.4, default mapper mode). -/
def mapImpl (impl : List Value → EvalContext → Except QueryError (List Value))
    (ctx : EvalContext) (argVals : List Value) :
    List Value → Except QueryError (List Value)
  | [] => .ok []
  | v :: rest =>
    match impl (v :: argVals) ctx with
    | .error e => .error e
    | .ok out =>
      match mapImpl impl ctx argVals rest with
      | .error e => .error e
      | .ok rest2 => .ok (out ++ rest2)

mutual
/-- Modelled from the spec: evaluate one pipeline stage against the
current value set (§4.4): selector stages through the extractor table;
literal stages produce their value; function-call stages look the name
up (`UnknownFunction` when absent), enforce the declared arity range
(`ArityError` outside it, reporting the range and the actual count),
evaluate the arguments as independent sub-expressions against the same
current set, and run the implementation per item. -/
def evalStage (reg : Registry) (ctx : EvalContext) :
    Expr → List Value → Except QueryError (List Value)
  | .selector path sp, cur => applySelectorPath reg ctx path sp cur
  | .lit v _, _ => .ok [v]
  | .call name args sp, cur =>
    match reg.lookupFunction name with
    | none => .error ⟨.unknownFunction name, some sp⟩
    | some f =>
      if f.arityOk args.length then
        match evalArgs reg ctx args cur with
        | .error e => .error e
        | .ok argVals => mapImpl f.impl ctx argVals cur
      else .error ⟨.arityError f.arityLo f.arityHi args.length, some sp⟩
/-- Modelled from the spec: evaluate the argument expressions, each
against the same current value set, in order (§4.4). -/
def evalArgs (reg : Registry) (ctx : EvalContext) :
    ExprList → List Value → Except QueryError (List Value)
  | .nil, _ => .ok []
  | .cons a rest, cur =>
    match evalStage reg ctx a cur with
    | .error e => .error e
    | .ok vs =>
      match evalArgs reg ctx rest cur with
      | .error e => .error e
      | .ok others => .ok (collapseArg vs :: others)
end

/-- Modelled from the spec: run the pipeline stages in order, threading
the current value set; the first failing stage aborts the whole query
(§4.4). -/
def evalStages (reg : Registry) (ctx : EvalContext) :
    List Expr → List Value → Except QueryError (List Value)
  | [], cur => .ok cur
  | st :: rest, cur =>
    match evalStage reg ctx st cur with
    | .error e => .error e
    | .ok next => evalStages reg ctx rest next

/-- Modelled from the spec: the initial current value — the whole
document as its root value (§4.4). -/
def rootValue (d : Document) : Value :=
  .node [] (.mk .document "" d.blocks)

/-- Modelled from the spec: the evaluation engine — the document plus
the registry it resolves names through (§4.4). -/
structure Engine where
  doc : Document
  registry : Registry

/-- `Engine::new(document)` — engine with the built-in registry. -/
def Engine.new (doc : Document) : Engine :=
  ⟨doc, Registry.with_builtins⟩

/-- `Engine::with_registry(document, registry)`. -/
def Engine.with_registry (doc : Document) (registry : Registry) : Engine :=
  ⟨doc, registry⟩

/-- Modelled from the spec: `Engine::execute` — run a parsed query's
stages against the document, starting from the root value (§4.4). -/
def Engine.execute (e : Engine) (q : Query) : Except QueryError (List Value) :=
  evalStages e.registry ⟨e.doc⟩ q.stages [rootValue e.doc]

/-- `query::parse` (`src/query/mod.rs`, lines 67–70): tokenize, then
parse the token sequence. -/
def parse (query_str : String) : Except QueryError Query :=
  match tokenize query_str with
  | .error e => .error e
  | .ok toks => parserParse toks

/-- `query::execute` (`src/query/mod.rs`, lines 58–62): parse the query
string and run it through a fresh default engine on the document. -/
def execute (doc : Document) (query_str : String) : Except QueryError (List Value) :=
  match parse query_str with
  | .error e => .error e
  | .ok query => (Engine.new doc).execute query

/-- `query::engine` (`src/query/mod.rs`). -/
def engine (doc : Document) : Engine :=
  Engine.new doc

/-- `query::engine_with_registry` (`src/query/mod.rs`). -/
def engine_with_registry (doc : Document) (registry : Registry) : Engine :=
  Engine.with_registry doc registry

/-- JSON escaping of one character (quote, backslash, newline). -/
def escCh (c : Char) : List Char :=
  if c = '"' then ['\\', '"']
  else if c = '\\' then ['\\', '\\']
  else if c = '\n' then ['\\', 'n']
  else [c]

/-- JSON escaping of a character sequence. -/
def escapeJsonL : List Char → List Char
  | [] => []
  | c :: rest => escCh c ++ escapeJsonL rest

mutual
/-- Modelled from the spec: the compact JSON rendering of a value
(§4.5); a structural reference renders as the JSON string of its textual
content. -/
def Value.toJson : Value → String
  | .str s => "\"" ++ String.mk (escapeJsonL s.data) ++ "\""
  | .num n => toString n
  | .bool b => if b then "true" else "false"
  | .null => "null"
  | .list vs => "[" ++ String.intercalate "," vs.toJsons ++ "]"
  | .node _ n => "\"" ++ String.mk (escapeJsonL n.text.data) ++ "\""
/-- JSON renderings of the elements of a `ValueList`. -/
def ValueList.toJsons : ValueList → List String
  | .nil => []
  | .cons v rest => v.toJson :: rest.toJsons
end

/-- Modelled from the spec: the markdown-ish re-rendering of a value
(§4.5): headings get their hash prefix back, links their brackets, code
blocks their fences; scalars fall back to their text projection. -/
def Value.toMarkdown : Value → String
  | .node _ n =>
    match n.kind with
    | .heading lvl => String.mk (List.replicate lvl '#') ++ " " ++ n.text
    | .codeBlock => "```" ++ "\n" ++ n.text ++ "\n" ++ "```"
    | .link => "[" ++ n.text ++ "]"
    | _ => n.text
  | v => v.toText

/-- Box-drawing lines for a forest, at the given indent depth. -/
def treeLines : Nat → NodeList → List String
  | _, .nil => []
  | depth, .cons (.mk _ t cs) rest =>
    (String.mk (List.replicate (2 * depth) ' ') ++ "└─ " ++ t) ::
      (treeLines (depth + 1) cs ++ treeLines depth rest)

/-- Modelled from the spec: the box-drawing hierarchical rendering of a
structural reference, falling back to plain text for scalars (§4.5). -/
def Value.toTree : Value → String
  | .node _ n => String.intercalate "\n" (n.text :: treeLines 1 n.children)
  | v => v.toText

/-- Output format for query results (`OutputFormat` in
`src/query/mod.rs`, lines 112–127). -/
inductive OutputFormat where
  | Plain
  | Json
  | JsonPretty
  | JsonLines
  | Markdown
  | Tree
deriving DecidableEq

/-- `OutputFormat::from_str` (`src/query/mod.rs`, lines 129–143): match
on the lowercased name, unknown names fail with an error string. -/
def OutputFormat.from_str (s : String) : Except String OutputFormat :=
  let l := s.data.map rustToLower
  if l = "plain".data ∨ l = "text".data then .ok .Plain
  else if l = "json".data then .ok .Json
  else if l = "json-pretty".data ∨ l = "jsonpretty".data then .ok .JsonPretty
  else if l = "jsonl".data ∨ l = "jsonlines".data ∨ l = "ndjson".data then .ok .JsonLines
  else if l = "md".data ∨ l = "markdown".data then .ok .Markdown
  else if l = "tree".data then .ok .Tree
  else .error ("Unknown output format: " ++ s)

/-- Modelled from the spec: `output::format` (§4.5) — render a value
sequence in the chosen format, as a pure function of the sequence. -/
def formatValues (values : List Value) (format : OutputFormat) : String :=
  match format with
  | .Plain => String.intercalate "\n" (values.map Value.toText)
  | .Json => "[" ++ String.intercalate "," (values.map Value.toJson) ++ "]"
  | .JsonPretty =>
    "[\n  " ++ String.intercalate ",\n  " (values.map Value.toJson) ++ "\n]"
  | .JsonLines => String.intercalate "\n" (values.map Value.toJson)
  | .Markdown => String.intercalate "\n" (values.map Value.toMarkdown)
  | .Tree => String.intercalate "\n" (values.map Value.toTree)

/-- `query::format_output` (`src/query/mod.rs`, lines 105–107):
delegates to the output module's `format`. -/
def format_output (values : List Value) (format : OutputFormat) : String :=
  formatValues values format

/-- A small example document (`# Title`, a paragraph, `## Section`),
used to instantiate the query theorems on concrete inputs. -/
def docH2 : Document :=
  ⟨.cons (.mk (.heading 1) "Title"
      (.cons (.mk .paragraph "Content here" .nil)
        (.cons (.mk (.heading 2) "Section" .nil) .nil))) .nil⟩

/-- An example user function in the style of the `my_upper` doc example
of `src/query/mod.rs`: uppercases the text of its (optional single)
argument; declared arity range 0..=1. -/
def myUpperFn : Function :=
  Function.new
    (fun args _ => .ok [.str (String.mk ((args.headD .null).toText.data.map rustToUpper))])
    0 (some 1)

/-- The built-in registry extended with `my_upper`. -/
def regMy : Registry :=
  Registry.with_builtins.register_function "my_upper" myUpperFn

/-- A lowercased key-code string that begins with none of the modifier
spellings, so the stripping loop in `parse_key` leaves it alone. -/
def Clean (cs : List Char) : Prop :=
  ("ctrl-".data.isPrefixOf cs) = false ∧ ("control-".data.isPrefixOf cs) = false ∧
  ("alt-".data.isPrefixOf cs) = false ∧ ("meta-".data.isPrefixOf cs) = false ∧
  ("shift-".data.isPrefixOf cs) = false ∧ ("c-".data.isPrefixOf cs) = false ∧
  ("a-".data.isPrefixOf cs) = false ∧ ("s-".data.isPrefixOf cs) = false

instance (cs : List Char) : Decidable (Clean cs) := by
  unfold Clean; infer_instance

/-! ### Lemmas about the string helpers -/

theorem isPrefixOf_eq_iff (p : List Char) : ∀ l : List Char,
    p.isPrefixOf l = true ↔ ∃ t, l = p ++ t := by
  induction p with
  | nil => intro l; simp [List.isPrefixOf]
  | cons a as ih =>
    intro l
    cases l with
    | nil => simp [List.isPrefixOf]
    | cons b bs =>
      simp only [List.isPrefixOf, Bool.and_eq_true, beq_iff_eq, ih bs]
      constructor
      · rintro ⟨rfl, t, rfl⟩; exact ⟨t, rfl⟩
      · rintro ⟨t, h⟩
        rw [List.cons_append] at h
        obtain ⟨rfl, rfl⟩ := List.cons.injEq .. ▸ h
        exact ⟨rfl, t, rfl⟩

theorem containsSeq_iff (pat : List Char) : ∀ l : List Char,
    containsSeq l pat = true ↔ ∃ a b, l = a ++ pat ++ b := by
  intro l
  induction l with
  | nil =>
    simp only [containsSeq, List.isEmpty_iff]
    constructor
    · rintro rfl; exact ⟨[], [], rfl⟩
    · rintro ⟨a, b, h⟩
      rcases List.append_eq_nil.mp (List.append_assoc a pat b ▸ h.symm) with ⟨rfl, h2⟩
      exact (List.append_eq_nil.mp h2).1.symm ▸ rfl
  | cons c rest ih =>
    simp only [containsSeq, Bool.or_eq_true, isPrefixOf_eq_iff, ih]
    constructor
    · rintro (⟨t, h⟩ | ⟨a, b, rfl⟩)
      · exact ⟨[], t, by simp [h]⟩
      · exact ⟨c :: a, b, rfl⟩
    · rintro ⟨a, b, h⟩
      cases a with
      | nil => exact Or.inl ⟨b, by simpa using h⟩
      | cons a0 as =>
        rw [List.cons_append, List.cons_append] at h
        obtain ⟨rfl, h2⟩ := List.cons.injEq .. ▸ h
        exact Or.inr ⟨as, b, h2⟩

theorem dropWhile_head_eq_iff (p : Char → Bool) (a : Char) (hpa : p a = false) :
    ∀ l : List Char,
    ((l.dropWhile p).head? = some a) ↔
      ∃ ws rest, l = ws ++ a :: rest ∧ ∀ c ∈ ws, p c = true := by
  intro l
  induction l with
  | nil =>
    simp only [List.dropWhile_nil, List.head?_nil]
    constructor
    · intro h; cases h
    · rintro ⟨ws, rest, h, _⟩
      exact absurd h (by simp)
  | cons c rest ih =>
    by_cases h : p c = true
    · rw [List.dropWhile_cons_of_pos h, ih]
      constructor
      · rintro ⟨ws, r, rfl, hws⟩
        exact ⟨c :: ws, r, rfl, by simpa [h] using hws⟩
      · rintro ⟨ws, r, hl, hws⟩
        cases ws with
        | nil =>
          simp only [List.nil_append, List.cons.injEq] at hl
          rw [hl.1] at h
          rw [h] at hpa
          cases hpa
        | cons w ws' =>
          rw [List.cons_append] at hl
          obtain ⟨rfl, h2⟩ := List.cons.injEq .. ▸ hl
          exact ⟨ws', r, h2, fun x hx => hws x (List.mem_cons_of_mem _ hx)⟩
    · rw [List.dropWhile_cons_of_neg h]
      simp only [List.head?_cons, Option.some.injEq]
      constructor
      · rintro rfl; exact ⟨[], rest, rfl, by simp⟩
      · rintro ⟨ws, r, hl, hws⟩
        cases ws with
        | nil =>
          simp only [List.nil_append, List.cons.injEq] at hl
          exact hl.1
        | cons w ws' =>
          rw [List.cons_append] at hl
          obtain ⟨rfl, _⟩ := List.cons.injEq .. ▸ hl
          exact absurd (hws c (by simp)) h

/-! ### C10: `process_input` -/

/-- C10: `process_input` passes content through unchanged exactly when it
already looks like markdown — its leading-whitespace-trimmed form starts
with `#` or it contains the substring `"\n#"` — and otherwise returns the
content with the heading `"# Input\n\n"` prepended; it never fails and
never alters the original bytes of the content itself. -/
theorem process_input_spec (src : InputSource) :
    (∃ out, process_input src = .ok out) ∧
    (process_input src = .ok src.content ↔
      ((∃ ws rest, src.content.data = ws ++ '#' :: rest ∧
          ∀ c ∈ ws, rustIsWhitespace c = true) ∨
       (∃ a b, src.content.data = a ++ '\n' :: '#' :: b))) ∧
    (process_input src = .ok src.content ∨
     process_input src = .ok ("# Input\n\n" ++ src.content)) := by
  have hhash : rustIsWhitespace '#' = false := by decide
  have hA : startsWithHashAfterTrim src.content = true ↔
      (∃ ws rest, src.content.data = ws ++ '#' :: rest ∧
        ∀ c ∈ ws, rustIsWhitespace c = true) := by
    rw [show startsWithHashAfterTrim src.content =
        decide ((List.dropWhile rustIsWhitespace src.content.data).head? = some '#')
        from rfl, decide_eq_true_eq]
    exact dropWhile_head_eq_iff rustIsWhitespace '#' hhash src.content.data
  have hB : containsSeq src.content.data "\n#".data = true ↔
      (∃ a b, src.content.data = a ++ '\n' :: '#' :: b) := by
    rw [containsSeq_iff]
    constructor
    · rintro ⟨a, b, h⟩; exact ⟨a, b, by simpa using h⟩
    · rintro ⟨a, b, h⟩; exact ⟨a, b, by simpa using h⟩
  have hne : ("# Input\n\n" ++ src.content) ≠ src.content := by
    intro h
    have h2 := congrArg String.length h
    rw [String.length_append] at h2
    have h9 : ("# Input\n\n" : String).length = 9 := rfl
    omega
  by_cases hcond : (startsWithHashAfterTrim src.content
      || containsSeq src.content.data "\n#".data) = true
  · have hok : process_input src = .ok src.content := by
      unfold process_input; rw [if_pos hcond]
    rcases Bool.or_eq_true_iff.mp hcond with h | h
    · exact ⟨⟨_, hok⟩, ⟨fun _ => Or.inl (hA.mp h), fun _ => hok⟩, Or.inl hok⟩
    · exact ⟨⟨_, hok⟩, ⟨fun _ => Or.inr (hB.mp h), fun _ => hok⟩, Or.inl hok⟩
  · have hb : (startsWithHashAfterTrim src.content
        || containsSeq src.content.data "\n#".data) = false := by
      revert hcond
      cases (startsWithHashAfterTrim src.content
        || containsSeq src.content.data "\n#".data) <;> simp
    have hok : process_input src = .ok ("# Input\n\n" ++ src.content) := by
      unfold process_input
      rw [if_neg hcond]
    refine ⟨⟨_, hok⟩, ⟨?_, ?_⟩, Or.inr hok⟩
    · intro h
      rw [hok] at h
      exact absurd (Except.ok.injEq .. ▸ h) hne
    · rintro (h | h)
      · rw [hA.mpr h] at hb; simp at hb
      · rw [hB.mpr h] at hb; simp at hb

/-! ### Lemmas for the key-string round trip (C9) -/

theorem toNat_ofNat_of_lt {n : Nat} (h : n < 55296) : (Char.ofNat n).toNat = n := by
  rw [Char.ofNat, dif_pos (Or.inl h)]
  simp [Char.ofNatAux, Char.toNat, UInt32.toNat]

theorem char_eq_of_toNat_eq {c d : Char} (h : c.toNat = d.toNat) : c = d := by
  apply Char.ext
  have h2 : c.val.toNat = d.val.toNat := h
  exact UInt32.toNat.inj h2

theorem rustIsUpper_rustToLower (c : Char) : rustIsUpper (rustToLower c) = false := by
  unfold rustIsUpper rustToLower
  by_cases h : 65 ≤ c.toNat ∧ c.toNat ≤ 90
  · rw [if_pos h, toNat_ofNat_of_lt (by omega)]
    simp only [decide_eq_false_iff_not, not_and]
    omega
  · rw [if_neg h]
    simpa using h

theorem rustToLower_eq_self {c : Char} (h : rustIsUpper c = false) : rustToLower c = c := by
  simp only [rustIsUpper, decide_eq_false_iff_not] at h
  rw [rustToLower, if_neg h]

theorem rustIsWhitespace_rustToLower (c : Char) :
    rustIsWhitespace (rustToLower c) = rustIsWhitespace c := by
  unfold rustIsWhitespace rustToLower
  by_cases h : 65 ≤ c.toNat ∧ c.toNat ≤ 90
  · rw [if_pos h, toNat_ofNat_of_lt (by omega), decide_eq_decide]
    omega
  · rw [if_neg h]

theorem rustToUpper_toNat {c : Char} (h1 : 97 ≤ c.toNat) (h2 : c.toNat ≤ 122) :
    (rustToUpper c).toNat = c.toNat - 32 := by
  unfold rustToUpper
  rw [if_pos ⟨h1, h2⟩, toNat_ofNat_of_lt (by omega)]

theorem rustToLower_rustToUpper {c : Char} (h1 : 97 ≤ c.toNat) (h2 : c.toNat ≤ 122) :
    rustToLower (rustToUpper c) = c := by
  have ht := rustToUpper_toNat h1 h2
  unfold rustToLower
  rw [ht, if_pos (by omega)]
  have h3 : c.toNat - 32 + 32 = c.toNat := by omega
  rw [h3, Char.ofNat_toNat]

theorem rustIsWhitespace_rustToUpper {c : Char} (h1 : 97 ≤ c.toNat) (h2 : c.toNat ≤ 122) :
    rustIsWhitespace (rustToUpper c) = false := by
  unfold rustIsWhitespace
  rw [rustToUpper_toNat h1 h2]
  simp only [decide_eq_false_iff_not]
  omega

theorem dropWhile_eq_self_of_head (p : Char → Bool) (cs : List Char)
    (h : ∀ c, cs.head? = some c → p c = false) : cs.dropWhile p = cs := by
  cases cs with
  | nil => rfl
  | cons c rest => exact List.dropWhile_cons_of_neg (by simp [h c rfl])

theorem trimL_eq_self (cs : List Char)
    (hh : ∀ c, cs.head? = some c → rustIsWhitespace c = false)
    (hl : ∀ c, cs.getLast? = some c → rustIsWhitespace c = false) :
    trimL cs = cs := by
  unfold trimL trimStartL trimEndL
  rw [dropWhile_eq_self_of_head _ _ hh]
  rw [dropWhile_eq_self_of_head _ _ (fun c hc => hl c (by rwa [List.head?_reverse] at hc))]
  exact List.reverse_reverse cs

theorem strip_clean (fuel : Nat) (cs : List Char) (m : KeyModifiers)
    (h : Clean cs) : stripModifiers fuel cs m = (m, cs) := by
  obtain ⟨h1, h2, h3, h4, h5, h6, h7, h8⟩ := h
  cases fuel with
  | zero => rfl
  | succ f => simp [stripModifiers, h1, h2, h3, h4, h5, h6, h7, h8]

theorem strip_step_ctrl (f : Nat) (cs : List Char) (m : KeyModifiers) :
    stripModifiers (f + 1) ('c' :: 't' :: 'r' :: 'l' :: '-' ::cs) m
      = stripModifiers f cs { m with control := true } := by
  simp [stripModifiers, List.isPrefixOf]

theorem strip_step_alt (f : Nat) (cs : List Char) (m : KeyModifiers) :
    stripModifiers (f + 1) ('a' :: 'l' :: 't' :: '-' ::cs) m
      = stripModifiers f cs { m with alt := true } := by
  simp [stripModifiers, List.isPrefixOf]

theorem strip_step_shift (f : Nat) (cs : List Char) (m : KeyModifiers) :
    stripModifiers (f + 1) ('s' :: 'h' :: 'i' :: 'f' :: 't' :: '-' ::cs) m
      = stripModifiers f cs { m with shift := true } := by
  simp [stripModifiers, List.isPrefixOf]

theorem clean_singleton (c : Char) : Clean [c] := by
  refine ⟨?_, ?_, ?_, ?_, ?_, ?_, ?_, ?_⟩ <;> simp [List.isPrefixOf]

theorem parse_key_of_trim_self (s : String) (h : trimL s.data = s.data) (hne : s.data ≠ []) :
    parse_key s =
      (match parse_key_code
          (stripModifiers ((s.data.map rustToLower).length + 1)
            (s.data.map rustToLower) KeyModifiers.NONE).2 with
        | .error e => .error e
        | .ok code =>
          .ok ⟨code,
            (stripModifiers ((s.data.map rustToLower).length + 1)
              (s.data.map rustToLower) KeyModifiers.NONE).1⟩) := by
  simp only [parse_key, h, if_neg hne]

theorem parse_key_format (m : KeyModifiers) (code : KeyCode) (K : String)
    (hK : format_key_code code = K)
    (hne : K.data ≠ [])
    (hhead : K.data.head?.all (fun c => !rustIsWhitespace c) = true)
    (hlast : K.data.getLast?.all (fun c => !rustIsWhitespace c) = true)
    (hclean : Clean (K.data.map rustToLower))
    (hpkc : parse_key_code (K.data.map rustToLower) = .ok code) :
    parse_key (format_key ⟨code, m⟩) = .ok ⟨code, m⟩ := by
  obtain ⟨k0, krest, hKd⟩ : ∃ k0 krest, K.data = k0 :: krest := by
    cases hKd : K.data with
    | nil => exact absurd hKd hne
    | cons a l => exact ⟨a, l, rfl⟩
  have hheadF : ∀ c, K.data.head? = some c → rustIsWhitespace c = false := by
    intro c hc
    rw [hc] at hhead
    simpa using hhead
  have hlastF : ∀ c, K.data.getLast? = some c → rustIsWhitespace c = false := by
    intro c hc
    rw [hc] at hlast
    simpa using hlast
  obtain ⟨mc, ma, ms⟩ := m
  cases mc <;> cases ma <;> cases ms
  · have hF : (format_key ⟨code, ⟨false, false, false⟩⟩).data = K.data := by
      simp [format_key, joinDash, hK]
    have htrim : trimL (format_key ⟨code, ⟨false, false, false⟩⟩).data
        = (format_key ⟨code, ⟨false, false, false⟩⟩).data := by
      rw [hF]; exact trimL_eq_self _ hheadF hlastF
    have hFne : (format_key ⟨code, ⟨false, false, false⟩⟩).data ≠ [] := by
      rw [hF]; exact hne
    rw [parse_key_of_trim_self _ htrim hFne, hF]
    rw [strip_clean _ _ _ hclean, hpkc]
    simp [KeyModifiers.NONE]
  · have hF : (format_key ⟨code, ⟨false, false, true⟩⟩).data = 'S' :: 'h' :: 'i' :: 'f' :: 't' :: '-' ::K.data := by
      simp [format_key, joinDash, hK]
    have htrim : trimL (format_key ⟨code, ⟨false, false, true⟩⟩).data
        = (format_key ⟨code, ⟨false, false, true⟩⟩).data := by
      rw [hF]
      apply trimL_eq_self
      · intro c hc
        simp only [List.head?_cons, Option.some.injEq] at hc
        rw [← hc]; decide
      · intro c hc
        rw [hKd] at hc
        simp only [List.getLast?_cons_cons] at hc
        exact hlastF c (by rw [hKd]; exact hc)
    have hFne : (format_key ⟨code, ⟨false, false, true⟩⟩).data ≠ [] := by
      rw [hF]; simp
    rw [parse_key_of_trim_self _ htrim hFne, hF]
    simp only [List.map_cons, List.length_cons,
    show rustToLower 'C' = 'c' from by decide,
    show rustToLower 't' = 't' from by decide,
    show rustToLower 'r' = 'r' from by decide,
    show rustToLower 'l' = 'l' from by decide,
    show rustToLower '-' = '-' from by decide,
    show rustToLower 'A' = 'a' from by decide,
    show rustToLower 'S' = 's' from by decide,
    show rustToLower 'h' = 'h' from by decide,
    show rustToLower 'i' = 'i' from by decide,
    show rustToLower 'f' = 'f' from by decide]
    rw [strip_step_shift, strip_clean _ _ _ hclean, hpkc]
    simp [KeyModifiers.NONE]
  · have hF : (format_key ⟨code, ⟨false, true, false⟩⟩).data = 'A' :: 'l' :: 't' :: '-' ::K.data := by
      simp [format_key, joinDash, hK]
    have htrim : trimL (format_key ⟨code, ⟨false, true, false⟩⟩).data
        = (format_key ⟨code, ⟨false, true, false⟩⟩).data := by
      rw [hF]
      apply trimL_eq_self
      · intro c hc
        simp only [List.head?_cons, Option.some.injEq] at hc
        rw [← hc]; decide
      · intro c hc
        rw [hKd] at hc
        simp only [List.getLast?_cons_cons] at hc
        exact hlastF c (by rw [hKd]; exact hc)
    have hFne : (format_key ⟨code, ⟨false, true, false⟩⟩).data ≠ [] := by
      rw [hF]; simp
    rw [parse_key_of_trim_self _ htrim hFne, hF]
    simp only [List.map_cons, List.length_cons,
    show rustToLower 'C' = 'c' from by decide,
    show rustToLower 't' = 't' from by decide,
    show rustToLower 'r' = 'r' from by decide,
    show rustToLower 'l' = 'l' from by decide,
    show rustToLower '-' = '-' from by decide,
    show rustToLower 'A' = 'a' from by decide,
    show rustToLower 'S' = 's' from by decide,
    show rustToLower 'h' = 'h' from by decide,
    show rustToLower 'i' = 'i' from by decide,
    show rustToLower 'f' = 'f' from by decide]
    rw [strip_step_alt, strip_clean _ _ _ hclean, hpkc]
    simp [KeyModifiers.NONE]
  · have hF : (format_key ⟨code, ⟨false, true, true⟩⟩).data = 'A' :: 'l' :: 't' :: '-' :: 'S' :: 'h' :: 'i' :: 'f' :: 't' :: '-' ::K.data := by
      simp [format_key, joinDash, hK]
    have htrim : trimL (format_key ⟨code, ⟨false, true, true⟩⟩).data
        = (format_key ⟨code, ⟨false, true, true⟩⟩).data := by
      rw [hF]
      apply trimL_eq_self
      · intro c hc
        simp only [List.head?_cons, Option.some.injEq] at hc
        rw [← hc]; decide
      · intro c hc
        rw [hKd] at hc
        simp only [List.getLast?_cons_cons] at hc
        exact hlastF c (by rw [hKd]; exact hc)
    have hFne : (format_key ⟨code, ⟨false, true, true⟩⟩).data ≠ [] := by
      rw [hF]; simp
    rw [parse_key_of_trim_self _ htrim hFne, hF]
    simp only [List.map_cons, List.length_cons,
    show rustToLower 'C' = 'c' from by decide,
    show rustToLower 't' = 't' from by decide,
    show rustToLower 'r' = 'r' from by decide,
    show rustToLower 'l' = 'l' from by decide,
    show rustToLower '-' = '-' from by decide,
    show rustToLower 'A' = 'a' from by decide,
    show rustToLower 'S' = 's' from by decide,
    show rustToLower 'h' = 'h' from by decide,
    show rustToLower 'i' = 'i' from by decide,
    show rustToLower 'f' = 'f' from by decide]
    rw [strip_step_alt, strip_step_shift, strip_clean _ _ _ hclean, hpkc]
    simp [KeyModifiers.NONE]
  · have hF : (format_key ⟨code, ⟨true, false, false⟩⟩).data = 'C' :: 't' :: 'r' :: 'l' :: '-' ::K.data := by
      simp [format_key, joinDash, hK]
    have htrim : trimL (format_key ⟨code, ⟨true, false, false⟩⟩).data
        = (format_key ⟨code, ⟨true, false, false⟩⟩).data := by
      rw [hF]
      apply trimL_eq_self
      · intro c hc
        simp only [List.head?_cons, Option.some.injEq] at hc
        rw [← hc]; decide
      · intro c hc
        rw [hKd] at hc
        simp only [List.getLast?_cons_cons] at hc
        exact hlastF c (by rw [hKd]; exact hc)
    have hFne : (format_key ⟨code, ⟨true, false, false⟩⟩).data ≠ [] := by
      rw [hF]; simp
    rw [parse_key_of_trim_self _ htrim hFne, hF]
    simp only [List.map_cons, List.length_cons,
    show rustToLower 'C' = 'c' from by decide,
    show rustToLower 't' = 't' from by decide,
    show rustToLower 'r' = 'r' from by decide,
    show rustToLower 'l' = 'l' from by decide,
    show rustToLower '-' = '-' from by decide,
    show rustToLower 'A' = 'a' from by decide,
    show rustToLower 'S' = 's' from by decide,
    show rustToLower 'h' = 'h' from by decide,
    show rustToLower 'i' = 'i' from by decide,
    show rustToLower 'f' = 'f' from by decide]
    rw [strip_step_ctrl, strip_clean _ _ _ hclean, hpkc]
    simp [KeyModifiers.NONE]
  · have hF : (format_key ⟨code, ⟨true, false, true⟩⟩).data = 'C' :: 't' :: 'r' :: 'l' :: '-' :: 'S' :: 'h' :: 'i' :: 'f' :: 't' :: '-' ::K.data := by
      simp [format_key, joinDash, hK]
    have htrim : trimL (format_key ⟨code, ⟨true, false, true⟩⟩).data
        = (format_key ⟨code, ⟨true, false, true⟩⟩).data := by
      rw [hF]
      apply trimL_eq_self
      · intro c hc
        simp only [List.head?_cons, Option.some.injEq] at hc
        rw [← hc]; decide
      · intro c hc
        rw [hKd] at hc
        simp only [List.getLast?_cons_cons] at hc
        exact hlastF c (by rw [hKd]; exact hc)
    have hFne : (format_key ⟨code, ⟨true, false, true⟩⟩).data ≠ [] := by
      rw [hF]; simp
    rw [parse_key_of_trim_self _ htrim hFne, hF]
    simp only [List.map_cons, List.length_cons,
    show rustToLower 'C' = 'c' from by decide,
    show rustToLower 't' = 't' from by decide,
    show rustToLower 'r' = 'r' from by decide,
    show rustToLower 'l' = 'l' from by decide,
    show rustToLower '-' = '-' from by decide,
    show rustToLower 'A' = 'a' from by decide,
    show rustToLower 'S' = 's' from by decide,
    show rustToLower 'h' = 'h' from by decide,
    show rustToLower 'i' = 'i' from by decide,
    show rustToLower 'f' = 'f' from by decide]
    rw [strip_step_ctrl, strip_step_shift, strip_clean _ _ _ hclean, hpkc]
    simp [KeyModifiers.NONE]
  · have hF : (format_key ⟨code, ⟨true, true, false⟩⟩).data = 'C' :: 't' :: 'r' :: 'l' :: '-' :: 'A' :: 'l' :: 't' :: '-' ::K.data := by
      simp [format_key, joinDash, hK]
    have htrim : trimL (format_key ⟨code, ⟨true, true, false⟩⟩).data
        = (format_key ⟨code, ⟨true, true, false⟩⟩).data := by
      rw [hF]
      apply trimL_eq_self
      · intro c hc
        simp only [List.head?_cons, Option.some.injEq] at hc
        rw [← hc]; decide
      · intro c hc
        rw [hKd] at hc
        simp only [List.getLast?_cons_cons] at hc
        exact hlastF c (by rw [hKd]; exact hc)
    have hFne : (format_key ⟨code, ⟨true, true, false⟩⟩).data ≠ [] := by
      rw [hF]; simp
    rw [parse_key_of_trim_self _ htrim hFne, hF]
    simp only [List.map_cons, List.length_cons,
    show rustToLower 'C' = 'c' from by decide,
    show rustToLower 't' = 't' from by decide,
    show rustToLower 'r' = 'r' from by decide,
    show rustToLower 'l' = 'l' from by decide,
    show rustToLower '-' = '-' from by decide,
    show rustToLower 'A' = 'a' from by decide,
    show rustToLower 'S' = 's' from by decide,
    show rustToLower 'h' = 'h' from by decide,
    show rustToLower 'i' = 'i' from by decide,
    show rustToLower 'f' = 'f' from by decide]
    rw [strip_step_ctrl, strip_step_alt, strip_clean _ _ _ hclean, hpkc]
    simp [KeyModifiers.NONE]
  · have hF : (format_key ⟨code, ⟨true, true, true⟩⟩).data = 'C' :: 't' :: 'r' :: 'l' :: '-' :: 'A' :: 'l' :: 't' :: '-' :: 'S' :: 'h' :: 'i' :: 'f' :: 't' :: '-' ::K.data := by
      simp [format_key, joinDash, hK]
    have htrim : trimL (format_key ⟨code, ⟨true, true, true⟩⟩).data
        = (format_key ⟨code, ⟨true, true, true⟩⟩).data := by
      rw [hF]
      apply trimL_eq_self
      · intro c hc
        simp only [List.head?_cons, Option.some.injEq] at hc
        rw [← hc]; decide
      · intro c hc
        rw [hKd] at hc
        simp only [List.getLast?_cons_cons] at hc
        exact hlastF c (by rw [hKd]; exact hc)
    have hFne : (format_key ⟨code, ⟨true, true, true⟩⟩).data ≠ [] := by
      rw [hF]; simp
    rw [parse_key_of_trim_self _ htrim hFne, hF]
    simp only [List.map_cons, List.length_cons,
    show rustToLower 'C' = 'c' from by decide,
    show rustToLower 't' = 't' from by decide,
    show rustToLower 'r' = 'r' from by decide,
    show rustToLower 'l' = 'l' from by decide,
    show rustToLower '-' = '-' from by decide,
    show rustToLower 'A' = 'a' from by decide,
    show rustToLower 'S' = 's' from by decide,
    show rustToLower 'h' = 'h' from by decide,
    show rustToLower 'i' = 'i' from by decide,
    show rustToLower 'f' = 'f' from by decide]
    rw [strip_step_ctrl, strip_step_alt, strip_step_shift, strip_clean _ _ _ hclean, hpkc]
    try simp [KeyModifiers.NONE]

theorem byteLen_singleton (cs : List Char) (h : byteLen cs = 1) :
    ∃ c, cs = [c] ∧ c.utf8Size = 1 := by
  cases cs with
  | nil => simp [byteLen] at h
  | cons c rest =>
    cases rest with
    | nil =>
      refine ⟨c, rfl, ?_⟩
      simpa [byteLen] using h
    | cons d rest2 =>
      exfalso
      have hc := c.utf8Size_pos
      have hd := d.utf8Size_pos
      simp only [byteLen, List.map_cons, List.sum_cons] at h
      omega

theorem parse_key_code_single (c : Char) (hsz : c.utf8Size = 1) :
    parse_key_code [c] = .ok (.Char c) := by
  simp [parse_key_code, byteLen, hsz]

theorem head?_dropWhile_false (p : Char → Bool) (l : List Char) (a : Char)
    (h : (l.dropWhile p).head? = some a) : p a = false := by
  induction l with
  | nil => simp at h
  | cons c rest ih =>
    by_cases hp : p c = true
    · rw [List.dropWhile_cons_of_pos hp] at h
      exact ih h
    · rw [List.dropWhile_cons_of_neg (by simpa using hp)] at h
      simp only [List.head?_cons, Option.some.injEq] at h
      rw [← h]
      simpa using hp

theorem stripModifiers_suffix (fuel : Nat) : ∀ (cs : List Char) (m : KeyModifiers),
    ∃ k, (stripModifiers fuel cs m).2 = cs.drop k := by
  induction fuel with
  | zero => intro cs m; exact ⟨0, rfl⟩
  | succ f ih =>
    intro cs m
    unfold stripModifiers
    split_ifs with h1 h2 h3 h4 h5 h6 h7 h8
    · obtain ⟨k, hk⟩ := ih (cs.drop 5) _
      exact ⟨5 + k, by rw [hk, List.drop_drop]⟩
    · obtain ⟨k, hk⟩ := ih (cs.drop 8) _
      exact ⟨8 + k, by rw [hk, List.drop_drop]⟩
    · obtain ⟨k, hk⟩ := ih (cs.drop 4) _
      exact ⟨4 + k, by rw [hk, List.drop_drop]⟩
    · obtain ⟨k, hk⟩ := ih (cs.drop 5) _
      exact ⟨5 + k, by rw [hk, List.drop_drop]⟩
    · obtain ⟨k, hk⟩ := ih (cs.drop 6) _
      exact ⟨6 + k, by rw [hk, List.drop_drop]⟩
    · obtain ⟨k, hk⟩ := ih (cs.drop 2) _
      exact ⟨2 + k, by rw [hk, List.drop_drop]⟩
    · obtain ⟨k, hk⟩ := ih (cs.drop 2) _
      exact ⟨2 + k, by rw [hk, List.drop_drop]⟩
    · obtain ⟨k, hk⟩ := ih (cs.drop 2) _
      exact ⟨2 + k, by rw [hk, List.drop_drop]⟩
    · exact ⟨0, rfl⟩

theorem parse_key_code_reachable (cs : List Char) (code : KeyCode)
    (h : parse_key_code cs = .ok code)
    (hlow : ∀ c ∈ cs, rustIsUpper c = false)
    (hws : ∀ c, cs.getLast? = some c → rustIsWhitespace c = false) :
    ReachableCode code := by
  unfold parse_key_code at h
  by_cases h1 : cs = "enter".data ∨ cs = "return".data ∨ cs = "cr".data
  · rw [if_pos h1] at h
    injection h with h
    rw [← h]
    trivial
  · rw [if_neg h1] at h
    by_cases h2 : cs = "esc".data ∨ cs = "escape".data
    · rw [if_pos h2] at h
      injection h with h
      rw [← h]
      trivial
    · rw [if_neg h2] at h
      by_cases h3 : cs = "tab".data
      · rw [if_pos h3] at h
        injection h with h
        rw [← h]
        trivial
      · rw [if_neg h3] at h
        by_cases h4 : cs = "backtab".data ∨ cs = "btab".data
        · rw [if_pos h4] at h
          injection h with h
          rw [← h]
          trivial
        · rw [if_neg h4] at h
          by_cases h5 : cs = "backspace".data ∨ cs = "bs".data
          · rw [if_pos h5] at h
            injection h with h
            rw [← h]
            trivial
          · rw [if_neg h5] at h
            by_cases h6 : cs = "delete".data ∨ cs = "del".data
            · rw [if_pos h6] at h
              injection h with h
              rw [← h]
              trivial
            · rw [if_neg h6] at h
              by_cases h7 : cs = "insert".data ∨ cs = "ins".data
              · rw [if_pos h7] at h
                injection h with h
                rw [← h]
                trivial
              · rw [if_neg h7] at h
                by_cases h8 : cs = "home".data
                · rw [if_pos h8] at h
                  injection h with h
                  rw [← h]
                  trivial
                · rw [if_neg h8] at h
                  by_cases h9 : cs = "end".data
                  · rw [if_pos h9] at h
                    injection h with h
                    rw [← h]
                    trivial
                  · rw [if_neg h9] at h
                    by_cases h10 : cs = "pageup".data ∨ cs = "pgup".data ∨ cs = "page_up".data
                    · rw [if_pos h10] at h
                      injection h with h
                      rw [← h]
                      trivial
                    · rw [if_neg h10] at h
                      by_cases h11 : cs = "pagedown".data ∨ cs = "pgdn".data ∨ cs = "pgdown".data ∨ cs = "page_down".data
                      · rw [if_pos h11] at h
                        injection h with h
                        rw [← h]
                        trivial
                      · rw [if_neg h11] at h
                        by_cases h12 : cs = "up".data ∨ cs = "uparrow".data
                        · rw [if_pos h12] at h
                          injection h with h
                          rw [← h]
                          trivial
                        · rw [if_neg h12] at h
                          by_cases h13 : cs = "down".data ∨ cs = "downarrow".data
                          · rw [if_pos h13] at h
                            injection h with h
                            rw [← h]
                            trivial
                          · rw [if_neg h13] at h
                            by_cases h14 : cs = "left".data ∨ cs = "leftarrow".data
                            · rw [if_pos h14] at h
                              injection h with h
                              rw [← h]
                              trivial
                            · rw [if_neg h14] at h
                              by_cases h15 : cs = "right".data ∨ cs = "rightarrow".data
                              · rw [if_pos h15] at h
                                injection h with h
                                rw [← h]
                                trivial
                              · rw [if_neg h15] at h
                                by_cases h16 : cs = "space".data ∨ cs = "spc".data
                                · rw [if_pos h16] at h
                                  injection h with h
                                  rw [← h]
                                  exact ⟨by decide, by decide, Or.inl rfl⟩
                                · rw [if_neg h16] at h
                                  by_cases h17 : cs = "lt".data ∨ cs = "less".data
                                  · rw [if_pos h17] at h
                                    injection h with h
                                    rw [← h]
                                    exact ⟨by decide, by decide, Or.inr (by decide)⟩
                                  · rw [if_neg h17] at h
                                    by_cases h18 : cs = "gt".data ∨ cs = "greater".data
                                    · rw [if_pos h18] at h
                                      injection h with h
                                      rw [← h]
                                      exact ⟨by decide, by decide, Or.inr (by decide)⟩
                                    · rw [if_neg h18] at h
                                      by_cases h19 : cs = "bar".data ∨ cs = "pipe".data
                                      · rw [if_pos h19] at h
                                        injection h with h
                                        rw [← h]
                                        exact ⟨by decide, by decide, Or.inr (by decide)⟩
                                      · rw [if_neg h19] at h
                                        by_cases h20 : cs = "bslash".data ∨ cs = "backslash".data
                                        · rw [if_pos h20] at h
                                          injection h with h
                                          rw [← h]
                                          exact ⟨by decide, by decide, Or.inr (by decide)⟩
                                        · rw [if_neg h20] at h
                                          by_cases h21 : (cs.head? = some 'f' ∧ 2 ≤ byteLen cs)
                                          · rw [if_pos h21] at h
                                            rcases hp : parseU8 cs.tail with _ | n
                                            · simp [List.drop_one, hp] at h
                                            · simp only [List.drop_one, hp] at h
                                              by_cases hr : 1 ≤ n ∧ n ≤ 24
                                              · rw [if_pos hr] at h
                                                injection h with h
                                                rw [← h]
                                                exact hr
                                              · rw [if_neg hr] at h
                                                cases h
                                          · rw [if_neg h21] at h
                                            by_cases h22 : byteLen cs = 1
                                            · rw [if_pos h22] at h
                                              injection h with h
                                              obtain ⟨c, rfl, hsz⟩ := byteLen_singleton cs h22
                                              rw [← h]
                                              refine ⟨by simpa using hsz, hlow c (by simp), Or.inr ?_⟩
                                              exact hws c (by simp)
                                            · rw [if_neg h22] at h
                                              cases h

theorem getLast?_drop_some {l : List Char} {k : Nat} {c : Char}
    (h : (l.drop k).getLast? = some c) : l.getLast? = some c := by
  have hne : l.drop k ≠ [] := by
    intro hnil
    rw [hnil] at h
    cases h
  calc l.getLast? = (l.take k ++ l.drop k).getLast? := by rw [List.take_append_drop]
    _ = (l.drop k).getLast? := List.getLast?_append_of_ne_nil _ hne
    _ = some c := h

theorem trimL_getLast_not_ws (l : List Char) (d : Char)
    (h : (trimL l).getLast? = some d) : rustIsWhitespace d = false := by
  unfold trimL trimEndL at h
  rw [List.getLast?_reverse] at h
  exact head?_dropWhile_false _ _ _ h

theorem parse_key_reachable (s : String) (b : KeyBinding)
    (h : parse_key s = .ok b) : ReachableCode b.code := by
  simp only [parse_key] at h
  by_cases ht : trimL s.data = []
  · rw [if_pos ht] at h
    cases h
  · rw [if_neg ht] at h
    cases hc : parse_key_code
        (stripModifiers (((trimL s.data).map rustToLower).length + 1)
          ((trimL s.data).map rustToLower) KeyModifiers.NONE).2 with
    | error e =>
      rw [hc] at h
      cases h
    | ok code =>
      rw [hc] at h
      injection h with h
      rw [← h]
      apply parse_key_code_reachable _ code hc
      · intro c hcmem
        obtain ⟨k, hk⟩ := stripModifiers_suffix (((trimL s.data).map rustToLower).length + 1)
          ((trimL s.data).map rustToLower) KeyModifiers.NONE
        rw [hk] at hcmem
        obtain ⟨d, _, rfl⟩ := List.mem_map.mp (List.mem_of_mem_drop hcmem)
        exact rustIsUpper_rustToLower d
      · intro c hcl
        obtain ⟨k, hk⟩ := stripModifiers_suffix (((trimL s.data).map rustToLower).length + 1)
          ((trimL s.data).map rustToLower) KeyModifiers.NONE
        rw [hk] at hcl
        have hl2 : ((trimL s.data).map rustToLower).getLast? = some c := getLast?_drop_some hcl
        rw [List.getLast?_map] at hl2
        cases hgl : (trimL s.data).getLast? with
        | none => rw [hgl] at hl2; cases hl2
        | some d =>
          rw [hgl] at hl2
          simp only [Option.map_some'] at hl2
          injection hl2 with hl2
          rw [← hl2, rustIsWhitespace_rustToLower]
          exact trimL_getLast_not_ws _ _ hgl




/-! ### C9: key-string round trip -/

/-- C9: key-string parsing and formatting round-trip — for every string
`s` that `parse_key` accepts, parsing the formatted form again yields
the same binding: `parse_key (format_key (parse_key s)) = parse_key s`,
with modifier order and letter case normalized but the `KeyCode` and
modifier set preserved. -/
theorem parse_format_key_roundtrip (s : String) (b : KeyBinding)
    (h : parse_key s = .ok b) :
    parse_key (format_key b) = parse_key s := by
  have hreach := parse_key_reachable s b h
  rw [h]
  obtain ⟨code, m⟩ := b
  cases code with
  | F n =>
    obtain ⟨hn1, hn2⟩ : 1 ≤ n ∧ n ≤ 24 := hreach
    interval_cases n <;>
      exact parse_key_format _ _ _ rfl (by decide) (by decide) (by decide)
        (by decide) (by decide)
  | Char c =>
    obtain ⟨hsz, hup, hsp⟩ :
        c.utf8Size = 1 ∧ rustIsUpper c = false ∧
          (c = ' ' ∨ rustIsWhitespace c = false) := hreach
    by_cases hspace : c = ' '
    · subst hspace
      exact parse_key_format _ _ _ rfl (by decide) (by decide) (by decide)
        (by decide) (by decide)
    · have hws : rustIsWhitespace c = false := hsp.resolve_left hspace
      have hup2 : ¬(65 ≤ c.toNat ∧ c.toNat ≤ 90) := by
        simpa [rustIsUpper] using hup
      by_cases halpha : 97 ≤ c.toNat ∧ c.toNat ≤ 122
      · have hK : format_key_code (.Char c) = String.mk [rustToUpper c] := by
          have hcond : (rustIsUpper c || !rustIsAlphabetic c) ≠ true := by
            intro hcon
            rcases Bool.or_eq_true_iff.mp hcon with h1 | h2
            · rw [hup] at h1; cases h1
            · rw [Bool.not_eq_true'] at h2
              simp only [rustIsAlphabetic, decide_eq_false_iff_not] at h2
              exact h2 (Or.inl halpha)
          simp only [format_key_code]
          rw [if_neg hspace, if_neg hcond]
        refine parse_key_format _ _ _ hK (by simp) ?_ ?_ ?_ ?_
        · simp [rustIsWhitespace_rustToUpper halpha.1 halpha.2]
        · simp [rustIsWhitespace_rustToUpper halpha.1 halpha.2]
        · simpa using clean_singleton (rustToLower (rustToUpper c))
        · simp only [List.map_cons, List.map_nil,
            rustToLower_rustToUpper halpha.1 halpha.2]
          exact parse_key_code_single c hsz
      · have hK : format_key_code (.Char c) = String.mk [c] := by
          have halphaB : rustIsAlphabetic c = false := by
            simp only [rustIsAlphabetic, decide_eq_false_iff_not]
            rintro (h1 | h2)
            · exact halpha h1
            · exact hup2 h2
          simp only [format_key_code]
          rw [if_neg hspace, if_pos (by rw [halphaB, hup]; rfl)]
        refine parse_key_format _ _ _ hK (by simp) ?_ ?_ ?_ ?_
        · simp [hws]
        · simp [hws]
        · simpa using clean_singleton (rustToLower c)
        · simp only [List.map_cons, List.map_nil, rustToLower_eq_self hup]
          exact parse_key_code_single c hsz
  | Null => exact hreach.elim
  | other => exact hreach.elim
  | _ =>
    exact parse_key_format _ _ _ rfl (by decide) (by decide) (by decide)
      (by decide) (by decide)

/-- Witness for C9 at `"ctrl-c"`. -/
theorem parse_format_key_roundtrip_witness :
    parse_key "ctrl-c" = .ok ⟨.Char 'c', ⟨true, false, false⟩⟩ ∧
    parse_key (format_key ⟨.Char 'c', ⟨true, false, false⟩⟩) = parse_key "ctrl-c" :=
  ⟨by decide, parse_format_key_roundtrip "ctrl-c" _ (by decide)⟩

/-! ### Lemmas and theorems for the query subsystem (C1-C8) -/

theorem collectMatching_eq (p : NodeKind → Bool) :
    ∀ (pos : List Nat) (i : Nat) (ns : NodeList),
    collectMatching p pos i ns =
      ((preorderPairs pos i ns).filter (fun pn => p pn.2.kind)).map
        (fun pn => Value.node pn.1 pn.2) := by
  intro pos i ns
  induction pos, i, ns using collectMatching.induct p with
  | case1 pos i => simp [collectMatching, preorderPairs]
  | case2 pos i k t cs rest ih1 ih2 =>
    simp only [collectMatching, preorderPairs, List.filter_cons, List.filter_append,
      List.map_append, ih1, ih2]
    by_cases hp : p k = true
    · simp [Node.kind, hp]
    · simp only [Bool.not_eq_true] at hp
      simp [Node.kind, hp]


theorem applyExtractorAll_append (ex : ExtractorFn) (ctx : EvalContext) :
    ∀ (xs ys vs ws : List Value),
    applyExtractorAll ex ctx xs = .ok vs →
    applyExtractorAll ex ctx ys = .ok ws →
    applyExtractorAll ex ctx (xs ++ ys) = .ok (vs ++ ws) := by
  intro xs
  induction xs with
  | nil =>
    intro ys vs ws h1 h2
    injection h1 with h1
    rw [← h1]
    simpa using h2
  | cons v rest ih =>
    intro ys vs ws h1 h2
    simp only [applyExtractorAll] at h1
    cases hev : ex v ctx with
    | error e =>
      simp only [hev] at h1
      exact Except.noConfusion h1
    | ok out =>
      simp only [hev] at h1
      cases hrest : applyExtractorAll ex ctx rest with
      | error e =>
        simp only [hrest] at h1
        exact Except.noConfusion h1
      | ok vs2 =>
        simp only [hrest] at h1
        injection h1 with h1
        have hih := ih ys vs2 ws hrest h2
        simp only [List.cons_append, applyExtractorAll, List.append_eq, hev, hih,
          ← h1, List.append_assoc]

/-- C1: for every document, executing the single-selector query `".h2"`
returns exactly the structural-reference values of the document's
level-2 headings, in the order those headings appear in the document's
pre-order depth-first traversal; and, more generally, a selector stage
concatenates per-input results in order — values produced downstream of
a selector preserve the relative document order of the elements they
were derived from. -/
theorem selector_ordering (d : Document) :
    execute d ".h2" =
      .ok (((preorderPairs [] 0 d.blocks).filter
          (fun pn => pn.2.kind = NodeKind.heading 2)).map
        (fun pn => Value.node pn.1 pn.2)) ∧
    (∀ (ex : ExtractorFn) (ctx : EvalContext) (xs ys vs ws : List Value),
      applyExtractorAll ex ctx xs = .ok vs →
      applyExtractorAll ex ctx ys = .ok ws →
      applyExtractorAll ex ctx (xs ++ ys) = .ok (vs ++ ws)) := by
  constructor
  · show Except.ok
        (collectMatching (fun k => k = NodeKind.heading 2) [] 0 d.blocks ++ []) = _
    rw [List.append_nil, collectMatching_eq]
  · exact fun ex ctx xs ys vs ws => applyExtractorAll_append ex ctx xs ys vs ws


theorem applyExtractorAll_text (ctx : EvalContext) :
    ∀ vs : List Value,
    applyExtractorAll textExtractor ctx vs =
      .ok (vs.map (fun v => Value.str v.toText)) := by
  intro vs
  induction vs with
  | nil => rfl
  | cons v rest ih => simp [applyExtractorAll, textExtractor, ih]

theorem text_stage (ctx : EvalContext) (sp : Span) (vs : List Value) :
    evalStage Registry.with_builtins ctx (.selector ["text"] sp) vs =
      .ok (vs.map (fun v => Value.str v.toText)) := by
  simp only [evalStage, applySelectorPath, applySelectorSeg,
    show Registry.with_builtins.lookupExtractor "text" = some textExtractor from rfl,
    applyExtractorAll_text]

/-- C2: for every document, the result sequence of
`execute(doc, ".h2 | .text")` equals, element for element and in the
same order, the textual projection (`to_text`) of each value in the
result sequence of `execute(doc, ".h2")`. -/
theorem pipe_composition (d : Document) (vs : List Value)
    (h : execute d ".h2" = .ok vs) :
    execute d ".h2 | .text" = .ok (vs.map (fun v => Value.str v.toText)) := by
  have hex1 : execute d ".h2" =
      evalStages Registry.with_builtins ⟨d⟩ [.selector ["h2"] ⟨0, 3⟩] [rootValue d] := rfl
  have hex2 : execute d ".h2 | .text" =
      evalStages Registry.with_builtins ⟨d⟩
        [.selector ["h2"] ⟨0, 3⟩, .selector ["text"] ⟨6, 11⟩] [rootValue d] := rfl
  rw [hex1] at h
  rw [hex2]
  simp only [evalStages] at h ⊢
  cases he : evalStage Registry.with_builtins ⟨d⟩ (.selector ["h2"] ⟨0, 3⟩) [rootValue d] with
  | error e =>
    simp only [he] at h
    exact Except.noConfusion h
  | ok next =>
    simp only [he] at h ⊢
    injection h with h
    rw [text_stage, h]


theorem evalStages_append (reg : Registry) (ctx : EvalContext) :
    ∀ (xs ys : List Expr) (cur : List Value),
    evalStages reg ctx (xs ++ ys) cur =
      (match evalStages reg ctx xs cur with
       | .error e => .error e
       | .ok mid => evalStages reg ctx ys mid) := by
  intro xs
  induction xs with
  | nil => intro ys cur; rfl
  | cons st rest ih =>
    intro ys cur
    simp only [List.cons_append, evalStages]
    cases hst : evalStage reg ctx st cur with
    | error e => rfl
    | ok next => exact ih ys next

/-- C3: for every document and every multi-stage query, if a pipeline
stage fails during evaluation then execution returns an error carrying
that stage's failure and the overall result contains zero output
values — the partial output accumulated by earlier successful stages is
never returned (all-or-nothing semantics). -/
theorem all_or_nothing (d : Document) (r : Registry) (pre post : List Expr)
    (stage : Expr) (set : List Value) (e : QueryError)
    (hpre : evalStages r ⟨d⟩ pre [rootValue d] = .ok set)
    (hfail : evalStage r ⟨d⟩ stage set = .error e) :
    (Engine.with_registry d r).execute ⟨pre ++ stage :: post⟩ = .error e := by
  show evalStages r ⟨d⟩ (pre ++ stage :: post) [rootValue d] = .error e
  rw [evalStages_append, hpre]
  simp only [evalStages, hfail]

/-- C4: for every query string on which parsing fails, `execute`
returns that same error for every document, and the result does not
depend on the document — evaluation never begins and the document is
never accessed before the parse result is known to be `Ok`. -/
theorem parse_fail_fast (s : String) (e : QueryError)
    (h : parse s = .error e) :
    (∀ d : Document, execute d s = .error e) ∧
    (∀ d1 d2 : Document, execute d1 s = execute d2 s) := by
  constructor
  · intro d
    simp only [execute, h]
  · intro d1 d2
    simp only [execute, h]

/-- C5: query execution and output formatting are deterministic: for a
fixed document, fixed query text and fixed registry, any two runs of
`execute` produce identical value sequences, and formatting those
sequences yields byte-identical strings under every `OutputFormat`. -/
theorem query_determinism (d : Document) (r : Registry) (q : Query) (s : String)
    (fmt : OutputFormat) (vs1 vs2 : List Value)
    (h1 : execute d s = .ok vs1) (h2 : execute d s = .ok vs2) :
    vs1 = vs2 ∧ format_output vs1 fmt = format_output vs2 fmt ∧
    (Engine.with_registry d r).execute q = (Engine.with_registry d r).execute q := by
  have h3 : Except.ok (ε := QueryError) vs1 = Except.ok vs2 := h1.symm.trans h2
  injection h3 with h3
  exact ⟨h3, by rw [h3], rfl⟩

/-- C6: the convenience entry point is equivalent to the two-step
path: for every document and query string, `query::execute(doc, s)`
returns exactly the result of `query::parse(s)` when that is an error,
and otherwise exactly the result of running `Engine::new(doc).execute`
on the `Query` that `parse` returned. -/
theorem execute_two_step (d : Document) (s : String) :
    (∀ e, parse s = .error e → execute d s = .error e) ∧
    (∀ q, parse s = .ok q → execute d s = (Engine.new d).execute q) := by
  constructor
  · intro e he
    simp only [execute, he]
  · intro q hq
    simp only [execute, hq]

/-- C8: for every registered function with declared inclusive arity
range lo..=hi, calling it through a query with an argument count outside
that range fails with `ArityError` reporting both the expected range and
the actual count, while calling it with any count inside the range
reaches the implementation without an engine-raised arity error; in
particular a function registered with range 0..=1 fails with
`ArityError` on 2 arguments and succeeds on 0 or 1 (see the witness). -/
theorem arity_enforcement (r : Registry) (name : String) (f : Function)
    (hlookup : r.lookupFunction name = some f)
    (d : Document) (args : ExprList) (sp : Span) (cur : List Value) :
    (∀ n, f.arityOk n = true ↔
      (f.arityLo ≤ n ∧ ∀ hi, f.arityHi = some hi → n ≤ hi)) ∧
    (f.arityOk args.length = false →
      evalStage r ⟨d⟩ (.call name args sp) cur =
        .error ⟨.arityError f.arityLo f.arityHi args.length, some sp⟩) ∧
    (f.arityOk args.length = true →
      evalStage r ⟨d⟩ (.call name args sp) cur =
        (match evalArgs r ⟨d⟩ args cur with
         | .error e => .error e
         | .ok argVals => mapImpl f.impl ⟨d⟩ argVals cur)) := by
  refine ⟨?_, ?_, ?_⟩
  · intro n
    unfold Function.arityOk
    cases hhi : f.arityHi with
    | none =>
      simp only [Bool.and_true, decide_eq_true_eq]
      constructor
      · intro hlo; exact ⟨hlo, fun hi hcon => absurd hcon (by simp)⟩
      · intro ⟨hlo, _⟩; exact hlo
    | some hi =>
      simp only [Bool.and_eq_true, decide_eq_true_eq]
      constructor
      · rintro ⟨hlo, hle⟩
        refine ⟨hlo, fun hi2 hhi2 => ?_⟩
        injection hhi2 with hhi2
        rw [← hhi2]
        exact hle
      · rintro ⟨hlo, hle⟩
        exact ⟨hlo, hle hi rfl⟩
  · intro hbad
    simp only [evalStage, hlookup, hbad]
    rfl
  · intro hgood
    simp only [evalStage, hlookup, hgood]
    rfl


/-- C7: `OutputFormat::from_str` returns `Ok` exactly for the strings
whose lowercasing is one of `plain`, `text`, `json`, `json-pretty`,
`jsonpretty`, `jsonl`, `jsonlines`, `ndjson`, `md`, `markdown`, `tree`
(mapped to the corresponding variant), and returns `Err` for every other
string — an unknown format name fails at format selection, before any
formatter runs. -/
theorem from_str_spec (s : String) :
    (OutputFormat.from_str s = .ok .Plain ↔
      (s.data.map rustToLower = "plain".data ∨ s.data.map rustToLower = "text".data)) ∧
    (OutputFormat.from_str s = .ok .Json ↔ s.data.map rustToLower = "json".data) ∧
    (OutputFormat.from_str s = .ok .JsonPretty ↔
      (s.data.map rustToLower = "json-pretty".data ∨
       s.data.map rustToLower = "jsonpretty".data)) ∧
    (OutputFormat.from_str s = .ok .JsonLines ↔
      (s.data.map rustToLower = "jsonl".data ∨
       s.data.map rustToLower = "jsonlines".data ∨
       s.data.map rustToLower = "ndjson".data)) ∧
    (OutputFormat.from_str s = .ok .Markdown ↔
      (s.data.map rustToLower = "md".data ∨ s.data.map rustToLower = "markdown".data)) ∧
    (OutputFormat.from_str s = .ok .Tree ↔ s.data.map rustToLower = "tree".data) ∧
    (¬(s.data.map rustToLower = "plain".data ∨ s.data.map rustToLower = "text".data ∨
       s.data.map rustToLower = "json".data ∨ s.data.map rustToLower = "json-pretty".data ∨
       s.data.map rustToLower = "jsonpretty".data ∨ s.data.map rustToLower = "jsonl".data ∨
       s.data.map rustToLower = "jsonlines".data ∨ s.data.map rustToLower = "ndjson".data ∨
       s.data.map rustToLower = "md".data ∨ s.data.map rustToLower = "markdown".data ∨
       s.data.map rustToLower = "tree".data) →
      OutputFormat.from_str s = .error ("Unknown output format: " ++ s)) := by
  simp only [OutputFormat.from_str]
  generalize s.data.map rustToLower = l
  split_ifs with h1 h2 h3 h4 h5 h6
  · rcases h1 with rfl | rfl <;> simp
  · subst h2
    simp [h1]
  · rcases h3 with rfl | rfl <;> simp
  · rcases h4 with rfl | rfl | rfl <;> simp
  · rcases h5 with rfl | rfl <;> simp
  · subst h6
    simp
  · refine ⟨?_, ?_, ?_, ?_, ?_, ?_, fun _ => rfl⟩ <;> simp [h1, h2, h3, h4, h5, h6]


/-! ### Witnesses for the query-subsystem theorems -/

/-- Witness for C1 on the example document. -/
theorem selector_ordering_witness :
    execute docH2 ".h2" = .ok [Value.node [0, 1] (.mk (.heading 2) "Section" .nil)] ∧
    applyExtractorAll textExtractor ⟨docH2⟩ ([Value.str "a"] ++ [Value.str "b"]) =
      .ok ([Value.str "a"] ++ [Value.str "b"]) :=
  ⟨(selector_ordering docH2).1.trans (by decide),
   (selector_ordering docH2).2 textExtractor ⟨docH2⟩
     [Value.str "a"] [Value.str "b"] [Value.str "a"] [Value.str "b"]
     (by decide) (by decide)⟩

/-- Witness for C2 on the example document. -/
theorem pipe_composition_witness :
    execute docH2 ".h2" = .ok [Value.node [0, 1] (.mk (.heading 2) "Section" .nil)] ∧
    execute docH2 ".h2 | .text" = .ok [Value.str "Section"] :=
  ⟨by decide,
   (pipe_composition docH2 [Value.node [0, 1] (.mk (.heading 2) "Section" .nil)]
     (by decide)).trans (by decide)⟩

/-- Witness for C3: a two-stage query whose second stage fails produces
zero output values, not the partial output of the first stage. -/
theorem all_or_nothing_witness :
    (Engine.with_registry docH2 Registry.with_builtins).execute
      ⟨[Expr.selector ["h2"] ⟨0, 3⟩] ++ Expr.selector ["nope"] ⟨4, 9⟩ :: []⟩ =
      .error ⟨.unknownSelector "nope", some ⟨4, 9⟩⟩ :=
  all_or_nothing docH2 Registry.with_builtins [Expr.selector ["h2"] ⟨0, 3⟩] []
    (Expr.selector ["nope"] ⟨4, 9⟩)
    [Value.node [0, 1] (.mk (.heading 2) "Section" .nil)]
    ⟨.unknownSelector "nope", some ⟨4, 9⟩⟩ (by decide) (by decide)

/-- Witness for C4 at the empty query string. -/
theorem parse_fail_fast_witness :
    parse "" = .error ⟨.parseError "empty query", none⟩ ∧
    execute ⟨.nil⟩ "" = .error ⟨.parseError "empty query", none⟩ :=
  ⟨by decide, (parse_fail_fast "" ⟨.parseError "empty query", none⟩ (by decide)).1 ⟨.nil⟩⟩

/-- Witness for C5 on the example document. -/
theorem query_determinism_witness :
    [Value.node [0, 1] (Node.mk (.heading 2) "Section" .nil)] =
      [Value.node [0, 1] (Node.mk (.heading 2) "Section" .nil)] ∧
    format_output [Value.node [0, 1] (Node.mk (.heading 2) "Section" .nil)] .Plain =
      format_output [Value.node [0, 1] (Node.mk (.heading 2) "Section" .nil)] .Plain ∧
    (Engine.with_registry docH2 Registry.with_builtins).execute
        ⟨[Expr.selector ["h2"] ⟨0, 3⟩]⟩ =
      (Engine.with_registry docH2 Registry.with_builtins).execute
        ⟨[Expr.selector ["h2"] ⟨0, 3⟩]⟩ :=
  query_determinism docH2 Registry.with_builtins ⟨[Expr.selector ["h2"] ⟨0, 3⟩]⟩
    ".h2" .Plain
    [Value.node [0, 1] (Node.mk (.heading 2) "Section" .nil)]
    [Value.node [0, 1] (Node.mk (.heading 2) "Section" .nil)]
    (by decide) (by decide)

/-- Witness for C6 on the example document. -/
theorem execute_two_step_witness :
    execute docH2 ".h2" = (Engine.new docH2).execute ⟨[Expr.selector ["h2"] ⟨0, 3⟩]⟩ :=
  (execute_two_step docH2 ".h2").2 ⟨[Expr.selector ["h2"] ⟨0, 3⟩]⟩ (by decide)

/-- Witness for C7: a case-normalized known name succeeds, an unknown
name fails at the format-selection boundary. -/
theorem from_str_spec_witness :
    OutputFormat.from_str "JSON" = .ok .Json ∧
    OutputFormat.from_str "bogus" = .error "Unknown output format: bogus" :=
  ⟨(from_str_spec "JSON").2.1.mpr (by decide),
   (from_str_spec "bogus").2.2.2.2.2.2 (by decide)⟩

/-- Witness for C8: `my_upper`, registered with arity range 0..=1, fails
with `ArityError` on 2 arguments (reporting the range and the count) and
its arity check passes on 0 and 1. -/
theorem arity_enforcement_witness :
    regMy.lookupFunction "my_upper" = some myUpperFn ∧
    myUpperFn.arityOk 0 = true ∧ myUpperFn.arityOk 1 = true ∧
    myUpperFn.arityOk 2 = false ∧
    evalStage regMy ⟨docH2⟩
        (.call "my_upper"
          (.cons (.lit (.num 1) ⟨0, 0⟩) (.cons (.lit (.num 2) ⟨0, 0⟩) .nil)) ⟨0, 0⟩)
        [rootValue docH2] =
      .error ⟨.arityError 0 (some 1) 2, some ⟨0, 0⟩⟩ :=
  ⟨rfl, rfl, rfl, rfl,
   (arity_enforcement regMy "my_upper" myUpperFn rfl docH2
     (.cons (.lit (.num 1) ⟨0, 0⟩) (.cons (.lit (.num 2) ⟨0, 0⟩) .nil))
     ⟨0, 0⟩ [rootValue docH2]).2.1 rfl⟩

/-- Witness for C10 at a non-markdown input. -/
theorem process_input_spec_witness :
    process_input (.stdin "hello") = .ok "# Input\n\nhello" := by
  rcases (process_input_spec (.stdin "hello")).2.2 with h | h
  · exfalso
    rcases (process_input_spec (.stdin "hello")).2.1.mp h with hA | hB
    · exact absurd
        ((dropWhile_head_eq_iff rustIsWhitespace '#' (by decide) _).mpr hA)
        (by decide)
    · refine absurd
        ((containsSeq_iff "\n#".data (InputSource.stdin "hello").content.data).mpr ?_)
        (by decide)
      obtain ⟨a, b, hab⟩ := hB
      exact ⟨a, b, by simpa using hab⟩
  · exact h

end Treemd
